import Mathlib

/-!
# Verification of the HdrHistogram C library core

The repository ships the public header `src/hdr_histogram.h` (struct layout,
API declarations and their documentation); the implementation bodies live in a
companion translation unit that is not part of the sources here.  Following the
specification document, this file builds a shallow embedding of the core:
bucket-config calculation, the value/index codec, the recorder, the percentile
query, coordinated-omission correction and histogram merging, and proves the
specified properties about it.

Machine integers (`int64_t`, `int32_t`) are modelled by `Nat`/`Int`; the
quantities manipulated by the in-range paths of the library fit comfortably in
64 bits, and the one place where a width conversion matters (the iterator's
32-bit `total_count` snapshot, see `hdr_iter_total_count_snapshot`) models the
two's-complement truncation explicitly.
-/

/-- Modelled from the spec: the geometry record produced by
`hdr_calculate_bucket_config` (C struct `hdr_histogram_bucket_config`,
header lines 493-505).  All fields are nonnegative machine integers in C and
are modelled as `Nat`. -/
structure hdr_histogram_bucket_config where
  lowest_trackable_value : Nat
  highest_trackable_value : Nat
  unit_magnitude : Nat
  significant_figures : Nat
  sub_bucket_half_count_magnitude : Nat
  sub_bucket_half_count : Nat
  sub_bucket_mask : Nat
  sub_bucket_count : Nat
  bucket_count : Nat
  counts_len : Nat
deriving DecidableEq, Repr

/-- Floor base-2 logarithm, as a fuel-bounded structural recursion so that the
kernel can evaluate it on concrete inputs; `log2floor_eq` identifies it with
`Nat.log2`. -/
def log2fuel : Nat → Nat → Nat
  | 0, _ => 0
  | fuel + 1, n => if n < 2 then 0 else log2fuel fuel (n / 2) + 1

/-- `⌊log₂ n⌋` (0 for `n = 0`), kernel-computable. -/
def log2floor (n : Nat) : Nat := log2fuel n n

/-- `⌈log₂ n⌉` (0 for `n ≤ 1`), via `⌈log₂ n⌉ = ⌊log₂ (n-1)⌋ + 1` for
`n ≥ 2`. -/
def ceil_log2 (n : Nat) : Nat := if n ≤ 1 then 0 else log2floor (n - 1) + 1

/-- The doubling loop of `buckets_needed_to_cover_value`, with explicit fuel so
that it is a structural recursion the kernel can evaluate. -/
def buckets_needed_loop : Nat → Nat → Nat → Nat
  | 0, _, _ => 1
  | fuel + 1, smallest_untrackable, value =>
    if smallest_untrackable ≤ value then
      buckets_needed_loop fuel (smallest_untrackable * 2) value + 1
    else
      1

/-- Modelled from the spec (4.A): "Compute `bucket_count` by starting from
`sub_bucket_count * 2^unit_magnitude` and repeatedly doubling until it covers
`highest`; count the doublings + 1."  For a positive starting point each
doubling increases it by at least one, so `value + 1` rounds of fuel always
outlast the loop. -/
def buckets_needed_to_cover_value (smallest_untrackable value : Nat) : Nat :=
  buckets_needed_loop (value + 1) smallest_untrackable value

/-- Modelled from the spec (4.A): the derivation part of the bucket-config
calculator, for parameters that already passed validation:

* `largest_value_with_single_unit_resolution = 2 * 10^sig_figs`;
* `sub_bucket_count_magnitude = ⌈log₂(largest_value_with_single_unit_resolution)⌉`;
* `sub_bucket_half_count_magnitude = max(sub_bucket_count_magnitude, 1) - 1`;
* `unit_magnitude = max(⌊log₂ lowest⌋, 0)`;
* `sub_bucket_count = 2^(m+1)`, `sub_bucket_half_count = 2^m`,
  `sub_bucket_mask = (sub_bucket_count - 1) <<< unit_magnitude`;
* `bucket_count` by the doubling loop, `counts_len = (bucket_count+1) * half`. -/
def config_for (lowest highest sig_figs : Nat) : hdr_histogram_bucket_config :=
  let largest_value_with_single_unit_resolution := 2 * 10 ^ sig_figs
  let sub_bucket_count_magnitude :=
    ceil_log2 largest_value_with_single_unit_resolution
  let sub_bucket_half_count_magnitude := max sub_bucket_count_magnitude 1 - 1
  let unit_magnitude := log2floor lowest
  let sub_bucket_count := 2 ^ (sub_bucket_half_count_magnitude + 1)
  let sub_bucket_half_count := 2 ^ sub_bucket_half_count_magnitude
  let sub_bucket_mask := (sub_bucket_count - 1) <<< unit_magnitude
  let bucket_count :=
    buckets_needed_to_cover_value (sub_bucket_count <<< unit_magnitude) highest
  { lowest_trackable_value := lowest
    highest_trackable_value := highest
    unit_magnitude := unit_magnitude
    significant_figures := sig_figs
    sub_bucket_half_count_magnitude := sub_bucket_half_count_magnitude
    sub_bucket_half_count := sub_bucket_half_count
    sub_bucket_mask := sub_bucket_mask
    sub_bucket_count := sub_bucket_count
    bucket_count := bucket_count
    counts_len := (bucket_count + 1) * sub_bucket_half_count }

/-- The C error code `EINVAL`. -/
def EINVAL : Nat := 22

/-- Modelled from the spec (4.A): `hdr_calculate_bucket_config` (declared at
header lines 507-511).  "Validation: fail with `InvalidArg` if `lowest < 1`,
`highest < 2*lowest`, or `sig_figs ∉ {1..5}`"; on success the derived geometry
is returned. -/
def hdr_calculate_bucket_config (lowest_trackable_value highest_trackable_value
    significant_figures : Int) : Except Nat hdr_histogram_bucket_config :=
  if lowest_trackable_value < 1 ∨
      highest_trackable_value < 2 * lowest_trackable_value ∨
      significant_figures < 1 ∨ 5 < significant_figures then
    Except.error EINVAL
  else
    Except.ok (config_for lowest_trackable_value.toNat
      highest_trackable_value.toNat significant_figures.toNat)

/-- Modelled from the spec: the histogram aggregate (C struct `hdr_histogram`,
header lines 72-95): the write-once geometry fields (copied from the bucket
config by `hdr_init_preallocated`), the counts array, `total_count`, and the
`min_value`/`max_value` sentinels.  `normalizing_index_offset` is 0 and
`conversion_ratio` is 1.0 for the core (spec 9, design notes), so neither is
carried.  The counters are plain values here: the spec's atomics only matter
for concurrent interleavings, which a sequential embedding does not model. -/
structure hdr_histogram where
  lowest_trackable_value : Nat
  highest_trackable_value : Nat
  unit_magnitude : Nat
  significant_figures : Nat
  sub_bucket_half_count_magnitude : Nat
  sub_bucket_half_count : Nat
  sub_bucket_mask : Nat
  sub_bucket_count : Nat
  bucket_count : Nat
  counts_len : Nat
  counts : List Nat
  total_count : Nat
  min_value : Nat
  max_value : Nat
deriving DecidableEq, Repr

/-- Modelled from the spec: `hdr_init_preallocated` (header line 529) copies the
bucket config into the histogram and zeroes the counters; `min_value` starts at
the sentinel `2^63 - 1` and `max_value` at 0 (spec 3, data model). -/
def hdr_init_preallocated (cfg : hdr_histogram_bucket_config) : hdr_histogram :=
  { lowest_trackable_value := cfg.lowest_trackable_value
    highest_trackable_value := cfg.highest_trackable_value
    unit_magnitude := cfg.unit_magnitude
    significant_figures := cfg.significant_figures
    sub_bucket_half_count_magnitude := cfg.sub_bucket_half_count_magnitude
    sub_bucket_half_count := cfg.sub_bucket_half_count
    sub_bucket_mask := cfg.sub_bucket_mask
    sub_bucket_count := cfg.sub_bucket_count
    bucket_count := cfg.bucket_count
    counts_len := cfg.counts_len
    counts := List.replicate cfg.counts_len 0
    total_count := 0
    min_value := 2 ^ 63 - 1
    max_value := 0 }

/-- A fresh histogram for valid parameters: `hdr_init` after successful
validation and allocation. -/
def mkHistogram (lowest highest sig_figs : Nat) : hdr_histogram :=
  hdr_init_preallocated (config_for lowest highest sig_figs)

/-- Modelled from the spec: `hdr_init` (header lines 101-125): validate and
derive the geometry via `hdr_calculate_bucket_config`, then allocate and
initialise.  Allocation failure (`ENOMEM`) is an environment event with no
counterpart in a shallow embedding, so the success branch always produces the
histogram. -/
def hdr_init (lowest_trackable_value highest_trackable_value
    significant_figures : Int) : Except Nat hdr_histogram :=
  match hdr_calculate_bucket_config lowest_trackable_value
      highest_trackable_value significant_figures with
  | Except.error e => Except.error e
  | Except.ok cfg => Except.ok (hdr_init_preallocated cfg)

/-- Modelled from the spec (4.B step 1): `bucket_index` is the index of "the
smallest bucket whose top covers `value`" (the spec's stated equivalent of the
`64 - clz(value | sub_bucket_mask)` formula): the least `b` with
`value < sub_bucket_count * 2^(unit_magnitude + b)`, i.e. the bit length of
`value` minus `unit_magnitude + (sub_bucket_half_count_magnitude + 1)`,
saturated at 0 — exactly the saturation the OR with `sub_bucket_mask`
performs in the clz form.  `get_bucket_index_le_iff` below proves the
characterisation. -/
def get_bucket_index (h : hdr_histogram) (value : Nat) : Nat :=
  (log2floor value + 1) -
    (h.unit_magnitude + (h.sub_bucket_half_count_magnitude + 1))

/-- Modelled from the spec (4.B step 2):
`sub_bucket_index = value >>> (bucket_index + unit_magnitude)`. -/
def get_sub_bucket_index (value : Nat) (bucket_index unit_magnitude : Nat) :
    Nat :=
  value >>> (bucket_index + unit_magnitude)

/-- Modelled from the spec (4.B steps 3-5): `base_index = (bucket_index + 1) *
sub_bucket_half_count`, `offset_in_bucket = sub_bucket_index -
sub_bucket_half_count`, and the counts index is their sum.  `offset_in_bucket`
can be negative in C (bucket 0 only); since `base_index ≥ sub_bucket_half_count`
always, the reassociated `Nat` expression below computes the same value.  The
`normalizing_index_offset` the spec adds (followed by the wrap modulo
`counts_len`) is 0 for the core (spec design notes), under which the
normalisation is the identity and the raw index is what the recorder's range
check (spec 4.C step 2) sees. -/
def counts_index (h : hdr_histogram) (bucket_index sub_bucket_index : Nat) :
    Nat :=
  (bucket_index + 1) * h.sub_bucket_half_count + sub_bucket_index -
    h.sub_bucket_half_count

/-- Modelled from the spec (4.B): value → counts index, the composition of
the three steps. -/
def counts_index_for (h : hdr_histogram) (value : Nat) : Nat :=
  counts_index h (get_bucket_index h value)
    (get_sub_bucket_index value (get_bucket_index h value) h.unit_magnitude)

/-- Modelled from the spec (4.B): counts index → value, declared as
`hdr_value_at_index` (header line 354): "invert the above; recover
`(bucket_index, sub_bucket_index)` and return
`sub_bucket_index <<< (bucket_index + unit_magnitude)`".  The recovery reads
the bucket row off the high bits (`index >>> sub_bucket_half_count_magnitude`,
minus one) and the offset off the low bits (`index` modulo
`sub_bucket_half_count`, plus `sub_bucket_half_count`); indices inside the
first half-row belong to bucket 0 directly. -/
def hdr_value_at_index (h : hdr_histogram) (index : Nat) : Nat :=
  if index < h.sub_bucket_half_count then
    index <<< h.unit_magnitude
  else
    let bucket_index := (index >>> h.sub_bucket_half_count_magnitude) - 1
    let sub_bucket_index :=
      index % h.sub_bucket_half_count + h.sub_bucket_half_count
    sub_bucket_index <<< (bucket_index + h.unit_magnitude)

/-- Modelled from the spec (4.B):
`size_of_equivalent_range(v) = 1 <<< (bucket_index(v) + unit_magnitude)`
(declared as `hdr_size_of_equivalent_value_range`, header line 531). -/
def hdr_size_of_equivalent_value_range (h : hdr_histogram) (value : Nat) :
    Nat :=
  1 <<< (get_bucket_index h value + h.unit_magnitude)

/-- Modelled from the spec (4.B): `lowest_equivalent(v)` is the value read back
from `v`'s own (bucket, sub-bucket) pair (declared as
`hdr_lowest_equivalent_value`, header lines 330-339). -/
def hdr_lowest_equivalent_value (h : hdr_histogram) (value : Nat) : Nat :=
  get_sub_bucket_index value (get_bucket_index h value) h.unit_magnitude <<<
    (get_bucket_index h value + h.unit_magnitude)

/-- Modelled from the spec (4.B):
`highest_equivalent(v) = lowest_equivalent(v) + size - 1`. -/
def hdr_highest_equivalent_value (h : hdr_histogram) (value : Nat) : Nat :=
  hdr_lowest_equivalent_value h value +
    hdr_size_of_equivalent_value_range h value - 1

/-- Modelled from the spec (4.B):
`next_non_equivalent(v) = lowest_equivalent(v) + size`. -/
def hdr_next_non_equivalent_value (h : hdr_histogram) (value : Nat) : Nat :=
  hdr_lowest_equivalent_value h value + hdr_size_of_equivalent_value_range h value

/-- Modelled from the spec (4.D): `count_at_value(v) = counts[index_at(v)]`
(declared as `hdr_count_at_value`, header lines 341-350). -/
def hdr_count_at_value (h : hdr_histogram) (value : Nat) : Nat :=
  h.counts.getD (counts_index_for h value) 0

/-- Modelled from the spec (4.C): `record_values(v, n)` (declared at header
line 221).  Steps: reject negative values; compute the counts index and reject
it when it falls outside `[0, counts_len)`; otherwise bump the count, the
total, and fold the value into the min/max registers (`min_value` keeps the
smallest non-zero value, `max_value` the largest).  The boolean result is the
C return value; on `false` the histogram is returned unchanged. -/
def hdr_record_values (h : hdr_histogram) (value : Int) (count : Nat) :
    Bool × hdr_histogram :=
  if value < 0 then (false, h)
  else
    let v := value.toNat
    let idx := counts_index_for h v
    if idx < h.counts_len then
      (true,
        { h with
          counts := h.counts.set idx (h.counts.getD idx 0 + count)
          total_count := h.total_count + count
          min_value := if v ≠ 0 ∧ v < h.min_value then v else h.min_value
          max_value := max h.max_value v })
    else (false, h)

/-- Modelled from the spec (4.C): `record_value(v) = record_values(v, 1)`
(declared as `hdr_record_value`, header lines 199-208). -/
def hdr_record_value (h : hdr_histogram) (value : Int) :
    Bool × hdr_histogram :=
  hdr_record_values h value 1

/-- Modelled from the spec (4.D): `min`: "read sentinels; if unset, return
sentinel" (declared as `hdr_min`, header lines 278-284). -/
def hdr_min (h : hdr_histogram) : Nat := h.min_value

/-- Modelled from the spec (4.D): `max`: "read sentinels; if unset, return
sentinel" (declared as `hdr_max`, header lines 286-292). -/
def hdr_max (h : hdr_histogram) : Nat := h.max_value

/-! ## Geometry facts

`WfGeom h` collects the arithmetic facts about a histogram's geometry fields
that hold for every histogram produced by `hdr_init` with valid parameters.
All codec lemmas are proved from these facts alone. -/

structure WfGeom (h : hdr_histogram) : Prop where
  half_eq : h.sub_bucket_half_count = 2 ^ h.sub_bucket_half_count_magnitude
  sbc_eq : h.sub_bucket_count = 2 ^ (h.sub_bucket_half_count_magnitude + 1)
  shcm_ge : 4 ≤ h.sub_bucket_half_count_magnitude
  len_eq : h.counts_len = (h.bucket_count + 1) * h.sub_bucket_half_count
  bc_ge : 1 ≤ h.bucket_count
  cover : h.highest_trackable_value <
    2 ^ (h.unit_magnitude + h.sub_bucket_half_count_magnitude + h.bucket_count)
  sig_le : 10 ^ h.significant_figures ≤ h.sub_bucket_half_count
  low_ge : 2 ^ h.unit_magnitude ≤ h.lowest_trackable_value
  low_lt : h.lowest_trackable_value < 2 ^ (h.unit_magnitude + 1)
  low_pos : 1 ≤ h.lowest_trackable_value

theorem log2fuel_eq (f : Nat) : ∀ n, n ≤ f → log2fuel f n = Nat.log2 n := by
  induction f with
  | zero =>
    intro n hn
    have : n = 0 := by omega
    simp [this, log2fuel, Nat.log2_zero]
  | succ f ih =>
    intro n hn
    rw [log2fuel]
    split
    · rename_i hlt
      conv_rhs => rw [Nat.log2]
      have : ¬ n ≥ 2 := by omega
      simp [this]
    · rename_i hge
      have h2 : n / 2 ≤ f := by omega
      rw [ih (n / 2) h2]
      conv_rhs => rw [Nat.log2]
      have : n ≥ 2 := by omega
      simp [this]

theorem log2floor_eq (n : Nat) : log2floor n = Nat.log2 n :=
  log2fuel_eq n n (Nat.le_refl n)

theorem le_two_pow_ceil_log2 (n : Nat) : n ≤ 2 ^ ceil_log2 n := by
  unfold ceil_log2
  split
  · rename_i hle
    simpa using hle
  · rename_i hgt
    rw [log2floor_eq]
    have hne : n - 1 ≠ 0 := by omega
    have := (Nat.log2_lt hne).1 (Nat.lt_succ_self (Nat.log2 (n - 1)))
    omega

theorem five_le_ceil_log2 (n : Nat) (hn : 16 < n) : 5 ≤ ceil_log2 n := by
  unfold ceil_log2
  split
  · omega
  · rw [log2floor_eq]
    have hne : n - 1 ≠ 0 := by omega
    have h4 : 4 ≤ Nat.log2 (n - 1) := (Nat.le_log2 hne).2 (by omega)
    omega

theorem buckets_loop_pos (fuel S v : Nat) :
    1 ≤ buckets_needed_loop fuel S v := by
  cases fuel with
  | zero => simp [buckets_needed_loop]
  | succ f =>
    rw [buckets_needed_loop]
    split <;> omega

theorem buckets_loop_cover (fuel : Nat) : ∀ S v, 1 ≤ S → v + 1 ≤ fuel + S →
    v < S * 2 ^ (buckets_needed_loop fuel S v - 1) := by
  induction fuel with
  | zero =>
    intro S v hS hf
    simp only [buckets_needed_loop]
    simpa using by omega
  | succ f ih =>
    intro S v hS hf
    rw [buckets_needed_loop]
    split
    · rename_i hle
      have hrec := ih (S * 2) v (by omega) (by omega)
      have hpos := buckets_loop_pos f (S * 2) v
      have h2 : S * 2 * 2 ^ (buckets_needed_loop f (S * 2) v - 1) =
          S * 2 ^ (buckets_needed_loop f (S * 2) v + 1 - 1) := by
        have hs : buckets_needed_loop f (S * 2) v + 1 - 1 =
            (buckets_needed_loop f (S * 2) v - 1) + 1 := by omega
        rw [hs, pow_succ]
        ring
      omega
    · simpa using by omega

theorem buckets_needed_pos (S v : Nat) :
    1 ≤ buckets_needed_to_cover_value S v :=
  buckets_loop_pos _ _ _

theorem buckets_needed_cover (S v : Nat) (hS : 1 ≤ S) :
    v < S * 2 ^ (buckets_needed_to_cover_value S v - 1) :=
  buckets_loop_cover (v + 1) S v hS (by omega)

theorem wfGeom_mkHistogram (l hi s : Nat) (hl : 1 ≤ l) (hhi : 2 * l ≤ hi)
    (hs1 : 1 ≤ s) (hs5 : s ≤ 5) : WfGeom (mkHistogram l hi s) := by
  have h20 : (20 : Nat) ≤ 2 * 10 ^ s := by
    have : (10 : Nat) ≤ 10 ^ s := by
      calc (10 : Nat) = 10 ^ 1 := by norm_num
      _ ≤ 10 ^ s := Nat.pow_le_pow_right (by norm_num) hs1
    omega
  have hclog : 5 ≤ ceil_log2 (2 * 10 ^ s) := five_le_ceil_log2 _ (by omega)
  have hmax : max (ceil_log2 (2 * 10 ^ s)) 1 = ceil_log2 (2 * 10 ^ s) :=
    Nat.max_eq_left (by omega)
  refine ⟨rfl, rfl, ?_, rfl, ?_, ?_, ?_, ?_, ?_, ?_⟩
  · show 4 ≤ max (ceil_log2 (2 * 10 ^ s)) 1 - 1
    rw [hmax]
    omega
  · exact buckets_needed_pos _ _
  · -- cover: highest < 2 ^ (um + shcm + bucket_count)
    show hi < 2 ^ (log2floor l + (max (ceil_log2 (2 * 10 ^ s)) 1 - 1) +
      buckets_needed_to_cover_value
        (2 ^ ((max (ceil_log2 (2 * 10 ^ s)) 1 - 1) + 1) <<< log2floor l) hi)
    rw [hmax]
    set m := ceil_log2 (2 * 10 ^ s) - 1 with hm
    set um := log2floor l with hum
    set S := 2 ^ (m + 1) <<< um with hS
    have hS1 : 1 ≤ S := by
      rw [hS, Nat.shiftLeft_eq]
      exact Nat.mul_pos (Nat.pos_pow_of_pos _ (by norm_num))
        (Nat.pos_pow_of_pos _ (by norm_num))
    have hcov := buckets_needed_cover S hi hS1
    set bc := buckets_needed_to_cover_value S hi with hbc
    have hbc1 : 1 ≤ bc := buckets_needed_pos _ _
    have hSeq : S * 2 ^ (bc - 1) = 2 ^ (um + m + bc) := by
      rw [hS, Nat.shiftLeft_eq, ← pow_add, ← pow_add]
      congr 1
      omega
    rw [hSeq] at hcov
    exact hcov
  · -- sig_le : 10 ^ s ≤ 2 ^ shcm
    show 10 ^ s ≤ 2 ^ (max (ceil_log2 (2 * 10 ^ s)) 1 - 1)
    rw [hmax]
    have hle : 2 * 10 ^ s ≤ 2 ^ ceil_log2 (2 * 10 ^ s) :=
      le_two_pow_ceil_log2 _
    have h2 : 2 ^ ceil_log2 (2 * 10 ^ s) =
        2 * 2 ^ (ceil_log2 (2 * 10 ^ s) - 1) := by
      rw [← pow_succ']
      congr 1
      omega
    omega
  · show 2 ^ log2floor l ≤ l
    rw [log2floor_eq]
    exact Nat.log2_self_le (by omega)
  · show l < 2 ^ (log2floor l + 1)
    rw [log2floor_eq]
    have hne : l ≠ 0 := by omega
    exact (Nat.log2_lt hne).1 (Nat.lt_succ_self _)
  · exact hl

/-! ## Codec arithmetic lemmas -/

theorem get_bucket_index_zero (h : hdr_histogram) : get_bucket_index h 0 = 0 := by
  simp only [get_bucket_index, log2floor, log2fuel]
  omega

theorem value_lt_two_pow_bucket (h : hdr_histogram) (v : Nat) :
    v < 2 ^ (h.unit_magnitude + h.sub_bucket_half_count_magnitude + 1 +
      get_bucket_index h v) := by
  rcases Nat.eq_zero_or_pos v with hv | hv
  · subst hv
    exact Nat.pos_pow_of_pos _ (by norm_num)
  · have hlog : Nat.log2 v <
        h.unit_magnitude + h.sub_bucket_half_count_magnitude + 1 +
          get_bucket_index h v := by
      unfold get_bucket_index
      rw [log2floor_eq]
      omega
    exact (Nat.log2_lt (by omega)).1 hlog

theorem two_pow_le_value_of_bucket_pos (h : hdr_histogram) (v : Nat)
    (hb : 1 ≤ get_bucket_index h v) :
    2 ^ (h.unit_magnitude + h.sub_bucket_half_count_magnitude +
      get_bucket_index h v) ≤ v := by
  have hv : v ≠ 0 := by
    intro hv0
    rw [hv0, get_bucket_index_zero] at hb
    omega
  have hlog : h.unit_magnitude + h.sub_bucket_half_count_magnitude +
      get_bucket_index h v ≤ Nat.log2 v := by
    unfold get_bucket_index at hb ⊢
    rw [log2floor_eq] at hb ⊢
    omega
  exact (Nat.le_log2 hv).1 hlog

theorem sub_bucket_index_lt (h : hdr_histogram) (v : Nat) :
    get_sub_bucket_index v (get_bucket_index h v) h.unit_magnitude <
      2 ^ (h.sub_bucket_half_count_magnitude + 1) := by
  unfold get_sub_bucket_index
  rw [Nat.shiftRight_eq_div_pow]
  have hv := value_lt_two_pow_bucket h v
  rw [Nat.div_lt_iff_lt_mul (Nat.pos_pow_of_pos _ (by norm_num))]
  calc v < 2 ^ (h.unit_magnitude + h.sub_bucket_half_count_magnitude + 1 +
      get_bucket_index h v) := hv
  _ = 2 ^ (h.sub_bucket_half_count_magnitude + 1) *
      2 ^ (get_bucket_index h v + h.unit_magnitude) := by
    rw [← pow_add]
    congr 1
    omega

theorem half_le_sub_bucket_index (h : hdr_histogram) (v : Nat)
    (hb : 1 ≤ get_bucket_index h v) :
    2 ^ h.sub_bucket_half_count_magnitude ≤
      get_sub_bucket_index v (get_bucket_index h v) h.unit_magnitude := by
  unfold get_sub_bucket_index
  rw [Nat.shiftRight_eq_div_pow]
  rw [Nat.le_div_iff_mul_le (Nat.pos_pow_of_pos _ (by norm_num))]
  have hv := two_pow_le_value_of_bucket_pos h v hb
  calc 2 ^ h.sub_bucket_half_count_magnitude *
      2 ^ (get_bucket_index h v + h.unit_magnitude)
      = 2 ^ (h.unit_magnitude + h.sub_bucket_half_count_magnitude +
        get_bucket_index h v) := by
        rw [← pow_add]
        congr 1
        omega
  _ ≤ v := hv

theorem counts_index_for_eq (h : hdr_histogram) (v : Nat) :
    counts_index_for h v =
      get_bucket_index h v * h.sub_bucket_half_count +
        get_sub_bucket_index v (get_bucket_index h v) h.unit_magnitude := by
  unfold counts_index_for counts_index
  have : (get_bucket_index h v + 1) * h.sub_bucket_half_count =
      get_bucket_index h v * h.sub_bucket_half_count +
        h.sub_bucket_half_count := by ring
  omega

theorem log2_eq_of (x k : Nat) (h1 : 2 ^ k ≤ x) (h2 : x < 2 ^ (k + 1)) :
    Nat.log2 x = k := by
  have hx : x ≠ 0 := by
    have := Nat.one_le_two_pow (n := k)
    omega
  have ha := (Nat.le_log2 hx).2 h1
  have hb := (Nat.log2_lt hx).2 h2
  omega

theorem log2_mono (x y : Nat) (hxy : x ≤ y) : Nat.log2 x ≤ Nat.log2 y := by
  rcases Nat.eq_zero_or_pos x with hx | hx
  · rw [hx, Nat.log2_zero]
    omega
  · have hx0 : x ≠ 0 := by omega
    have hy0 : y ≠ 0 := by omega
    exact (Nat.le_log2 hy0).2 ((Nat.log2_self_le hx0).trans hxy)

theorem get_bucket_index_of_sandwich (h : hdr_histogram) (v b : Nat)
    (h1 : 2 ^ (h.unit_magnitude + h.sub_bucket_half_count_magnitude + b) ≤ v)
    (h2 : v <
      2 ^ (h.unit_magnitude + h.sub_bucket_half_count_magnitude + 1 + b)) :
    get_bucket_index h v = b := by
  have hx : v ≠ 0 := by
    have := Nat.one_le_two_pow
      (n := h.unit_magnitude + h.sub_bucket_half_count_magnitude + b)
    omega
  have ha := (Nat.le_log2 hx).2 h1
  have hb := (Nat.log2_lt hx).2 (by
    calc v < 2 ^ (h.unit_magnitude + h.sub_bucket_half_count_magnitude + 1 + b) :=
      h2
    _ = 2 ^ (h.unit_magnitude + h.sub_bucket_half_count_magnitude + b + 1) := by
      congr 1
      omega)
  unfold get_bucket_index
  rw [log2floor_eq]
  omega

theorem get_bucket_index_eq_zero (h : hdr_histogram) (v : Nat)
    (hlt : v < 2 ^ (h.unit_magnitude + h.sub_bucket_half_count_magnitude + 1)) :
    get_bucket_index h v = 0 := by
  rcases Nat.eq_zero_or_pos v with hv | hv
  · rw [hv]
    exact get_bucket_index_zero h
  · have hx : v ≠ 0 := by omega
    have hb := (Nat.log2_lt hx).2 hlt
    unfold get_bucket_index
    rw [log2floor_eq]
    omega

theorem lowest_equivalent_spec (h : hdr_histogram) (v : Nat) :
    hdr_lowest_equivalent_value h v =
      v / 2 ^ (get_bucket_index h v + h.unit_magnitude) *
        2 ^ (get_bucket_index h v + h.unit_magnitude) := by
  unfold hdr_lowest_equivalent_value get_sub_bucket_index
  rw [Nat.shiftRight_eq_div_pow, Nat.shiftLeft_eq]

theorem size_spec (h : hdr_histogram) (v : Nat) :
    hdr_size_of_equivalent_value_range h v =
      2 ^ (get_bucket_index h v + h.unit_magnitude) := by
  unfold hdr_size_of_equivalent_value_range
  rw [Nat.shiftLeft_eq, Nat.one_mul]

theorem lowest_equivalent_le (h : hdr_histogram) (v : Nat) :
    hdr_lowest_equivalent_value h v ≤ v := by
  rw [lowest_equivalent_spec]
  exact Nat.div_mul_le_self v _

theorem lt_lowest_equivalent_add_size (h : hdr_histogram) (v : Nat) :
    v < hdr_lowest_equivalent_value h v +
      hdr_size_of_equivalent_value_range h v := by
  rw [lowest_equivalent_spec, size_spec]
  have hd := Nat.div_add_mod v (2 ^ (get_bucket_index h v + h.unit_magnitude))
  have hm := Nat.mod_lt v
    (Nat.two_pow_pos (get_bucket_index h v + h.unit_magnitude))
  set e := get_bucket_index h v + h.unit_magnitude
  set q := v / 2 ^ e
  have hcomm : 2 ^ e * q = q * 2 ^ e := Nat.mul_comm _ _
  omega

theorem gbi_lowest_equivalent (h : hdr_histogram) (v : Nat) :
    get_bucket_index h (hdr_lowest_equivalent_value h v) =
      get_bucket_index h v := by
  rcases Nat.eq_zero_or_pos (get_bucket_index h v) with hb | hb
  · rw [hb]
    apply get_bucket_index_eq_zero
    have hle := lowest_equivalent_le h v
    have hlt := value_lt_two_pow_bucket h v
    rw [hb] at hlt
    simp only [Nat.add_zero] at hlt
    omega
  · have hlo := half_le_sub_bucket_index h v hb
    have hhi := sub_bucket_index_lt h v
    unfold get_sub_bucket_index at hlo hhi
    rw [Nat.shiftRight_eq_div_pow] at hlo hhi
    rw [lowest_equivalent_spec]
    set b := get_bucket_index h v with hbdef
    set q := v / 2 ^ (b + h.unit_magnitude) with hq
    apply get_bucket_index_of_sandwich
    · calc 2 ^ (h.unit_magnitude + h.sub_bucket_half_count_magnitude + b) =
          2 ^ h.sub_bucket_half_count_magnitude * 2 ^ (b + h.unit_magnitude) := by
            rw [← pow_add]
            congr 1
            omega
      _ ≤ q * 2 ^ (b + h.unit_magnitude) :=
        Nat.mul_le_mul_right _ hlo
    · calc q * 2 ^ (b + h.unit_magnitude) <
          2 ^ (h.sub_bucket_half_count_magnitude + 1) *
            2 ^ (b + h.unit_magnitude) :=
            (Nat.mul_lt_mul_right (Nat.two_pow_pos _)).2 hhi
      _ = 2 ^ (h.unit_magnitude + h.sub_bucket_half_count_magnitude + 1 + b) := by
        rw [← pow_add]
        congr 1
        omega

theorem lowest_equivalent_idem (h : hdr_histogram) (v : Nat) :
    hdr_lowest_equivalent_value h (hdr_lowest_equivalent_value h v) =
      hdr_lowest_equivalent_value h v := by
  conv_lhs => rw [lowest_equivalent_spec, gbi_lowest_equivalent]
  rw [lowest_equivalent_spec]
  set e := get_bucket_index h v + h.unit_magnitude
  rw [Nat.mul_div_cancel _ (Nat.two_pow_pos e)]

theorem counts_index_lowest_equivalent (h : hdr_histogram) (v : Nat) :
    counts_index_for h (hdr_lowest_equivalent_value h v) =
      counts_index_for h v := by
  rw [counts_index_for_eq, counts_index_for_eq, gbi_lowest_equivalent]
  congr 1
  unfold get_sub_bucket_index
  rw [Nat.shiftRight_eq_div_pow, Nat.shiftRight_eq_div_pow,
    lowest_equivalent_spec]
  set e := get_bucket_index h v + h.unit_magnitude
  rw [Nat.mul_div_cancel _ (Nat.two_pow_pos e)]

theorem highest_equivalent_lowest_equivalent (h : hdr_histogram) (v : Nat) :
    hdr_highest_equivalent_value h (hdr_lowest_equivalent_value h v) =
      hdr_highest_equivalent_value h v := by
  unfold hdr_highest_equivalent_value
  rw [lowest_equivalent_idem, size_spec, size_spec, gbi_lowest_equivalent]

theorem two_pow_succ_shcm (h : hdr_histogram) (W : WfGeom h) :
    2 ^ (h.sub_bucket_half_count_magnitude + 1) =
      2 * h.sub_bucket_half_count := by
  rw [W.half_eq, pow_succ]
  ring

theorem counts_index_lt_iff (h : hdr_histogram) (W : WfGeom h) (v : Nat) :
    counts_index_for h v < h.counts_len ↔
      v < 2 ^ (h.unit_magnitude + h.sub_bucket_half_count_magnitude +
        h.bucket_count) := by
  set H := h.sub_bucket_half_count with hH
  set b := get_bucket_index h v with hbdef
  set S := get_sub_bucket_index v (get_bucket_index h v) h.unit_magnitude
    with hSdef
  have hidx : counts_index_for h v = b * H + S := counts_index_for_eq h v
  have hlen : h.counts_len = (h.bucket_count + 1) * H := W.len_eq
  have hlen2 : (h.bucket_count + 1) * H = h.bucket_count * H + H := by ring
  constructor
  · intro hlt
    by_contra hge
    push_neg at hge
    have hb : h.bucket_count ≤ b := by
      have hv0 : v ≠ 0 := by
        have := Nat.one_le_two_pow (n := h.unit_magnitude +
          h.sub_bucket_half_count_magnitude + h.bucket_count)
        omega
      have hlog : h.unit_magnitude + h.sub_bucket_half_count_magnitude +
          h.bucket_count ≤ Nat.log2 v := (Nat.le_log2 hv0).2 hge
      rw [hbdef]
      unfold get_bucket_index
      rw [log2floor_eq]
      omega
    have hb1 : 1 ≤ b := le_trans W.bc_ge hb
    have hS : H ≤ S := by
      have hhalf := half_le_sub_bucket_index h v (hbdef ▸ hb1)
      rw [← hSdef] at hhalf
      have hHeq : H = 2 ^ h.sub_bucket_half_count_magnitude := by
        rw [hH, W.half_eq]
      omega
    have hmul : h.bucket_count * H ≤ b * H := Nat.mul_le_mul_right H hb
    omega
  · intro hlt
    have hb : b < h.bucket_count := by
      by_contra hbge
      push_neg at hbge
      have hb1 : 1 ≤ b := le_trans W.bc_ge hbge
      have hle := two_pow_le_value_of_bucket_pos h v (hbdef ▸ hb1)
      have hpow : 2 ^ (h.unit_magnitude + h.sub_bucket_half_count_magnitude +
          h.bucket_count) ≤ 2 ^ (h.unit_magnitude +
            h.sub_bucket_half_count_magnitude + b) :=
        Nat.pow_le_pow_right (by norm_num) (by omega)
      rw [← hbdef] at hle
      omega
    have hS : S < 2 * H := by
      have := sub_bucket_index_lt h v
      rw [two_pow_succ_shcm h W] at this
      exact hSdef ▸ this
    have hmul : (b + 2) * H ≤ (h.bucket_count + 1) * H :=
      Nat.mul_le_mul_right H (by omega)
    have hmul2 : (b + 2) * H = b * H + 2 * H := by ring
    omega

theorem value_at_index_counts_index (h : hdr_histogram) (W : WfGeom h)
    (v : Nat) :
    hdr_value_at_index h (counts_index_for h v) =
      hdr_lowest_equivalent_value h v := by
  set H := h.sub_bucket_half_count with hH
  set b := get_bucket_index h v with hbdef
  set S := get_sub_bucket_index v (get_bucket_index h v) h.unit_magnitude
    with hSdef
  have hHpos : 0 < H := by
    rw [hH, W.half_eq]
    exact Nat.two_pow_pos _
  have hidx : counts_index_for h v = b * H + S := counts_index_for_eq h v
  have hSpec : S = v / 2 ^ (b + h.unit_magnitude) := by
    rw [hSdef]
    unfold get_sub_bucket_index
    rw [Nat.shiftRight_eq_div_pow]
  have hlow : hdr_lowest_equivalent_value h v =
      S * 2 ^ (b + h.unit_magnitude) := by
    rw [lowest_equivalent_spec, ← hbdef, ← hSpec]
  rcases Nat.lt_or_ge S H with hS | hS
  · -- S < half: then b = 0 and the index is S itself, in the first half-row
    have hb0 : b = 0 := by
      by_contra hb1
      have hhalf := half_le_sub_bucket_index h v (hbdef ▸ (by omega : 1 ≤ b))
      rw [← hSdef] at hhalf
      have hHeq : H = 2 ^ h.sub_bucket_half_count_magnitude := by
        rw [hH, W.half_eq]
      omega
    rw [hidx, hb0]
    simp only [Nat.zero_mul, Nat.zero_add]
    unfold hdr_value_at_index
    rw [if_pos (show S < h.sub_bucket_half_count by omega)]
    rw [Nat.shiftLeft_eq, hlow, hb0]
    simp
  · -- S ≥ half: the index lands in row b+1
    have hS2 : S < 2 * H := by
      have hlt := sub_bucket_index_lt h v
      rw [two_pow_succ_shcm h W] at hlt
      rw [← hSdef] at hlt
      omega
    have hge : ¬ (b * H + S < h.sub_bucket_half_count) := by
      rw [← hH]
      omega
    rw [hidx]
    unfold hdr_value_at_index
    rw [if_neg hge]
    have h1 : b * H + S = H * b + S := by ring
    have hdiv : (b * H + S) >>> h.sub_bucket_half_count_magnitude = b + 1 := by
      rw [Nat.shiftRight_eq_div_pow, ← W.half_eq, ← hH]
      rw [h1, Nat.mul_add_div hHpos]
      have hS1 : S / H = 1 := by
        apply Nat.div_eq_of_lt_le
        · omega
        · omega
      omega
    have hmod : (b * H + S) % h.sub_bucket_half_count = S - H := by
      rw [← hH, h1, Nat.mul_add_mod]
      rw [Nat.mod_eq_sub_mod hS, Nat.mod_eq_of_lt (by omega)]
    rw [hdiv, hmod]
    simp only [Nat.add_sub_cancel]
    rw [Nat.shiftLeft_eq, hlow, ← hH]
    congr 1
    omega

theorem counts_index_value_at_index (h : hdr_histogram) (W : WfGeom h)
    (j : Nat) :
    counts_index_for h (hdr_value_at_index h j) = j := by
  set H := h.sub_bucket_half_count with hH
  have hHpos : 0 < H := by
    rw [hH, W.half_eq]
    exact Nat.two_pow_pos _
  rcases Nat.lt_or_ge j H with hj | hj
  · -- first half-row: value is j units
    unfold hdr_value_at_index
    rw [if_pos (show j < h.sub_bucket_half_count by omega), Nat.shiftLeft_eq]
    have hb0 : get_bucket_index h (j * 2 ^ h.unit_magnitude) = 0 := by
      apply get_bucket_index_eq_zero
      calc j * 2 ^ h.unit_magnitude < H * 2 ^ h.unit_magnitude :=
        (Nat.mul_lt_mul_right (Nat.two_pow_pos _)).2 hj
      _ = 2 ^ (h.unit_magnitude + h.sub_bucket_half_count_magnitude) := by
        rw [hH, W.half_eq, ← pow_add]
        congr 1
        omega
      _ < 2 ^ (h.unit_magnitude + h.sub_bucket_half_count_magnitude + 1) :=
        Nat.pow_lt_pow_right (by norm_num) (by omega)
    rw [counts_index_for_eq, hb0]
    unfold get_sub_bucket_index
    rw [Nat.shiftRight_eq_div_pow]
    simp only [Nat.zero_mul, Nat.zero_add]
    exact Nat.mul_div_cancel _ (Nat.two_pow_pos _)
  · -- higher rows
    unfold hdr_value_at_index
    rw [if_neg (show ¬ j < h.sub_bucket_half_count by omega)]
    have hrow : j >>> h.sub_bucket_half_count_magnitude = j / H := by
      rw [Nat.shiftRight_eq_div_pow, ← W.half_eq, ← hH]
    have hrow1 : 1 ≤ j / H := (Nat.one_le_div_iff hHpos).2 hj
    set b := j / H - 1 with hb
    set r := j % H with hr
    have hrlt : r < H := Nat.mod_lt _ hHpos
    have hjeq : H * (b + 1) + r = j := by
      have hdm := Nat.div_add_mod j H
      have : b + 1 = j / H := by omega
      rw [this]
      exact hdm
    have hmod : j % h.sub_bucket_half_count = r := by rw [← hH, hr]
    show counts_index_for h
      ((j % h.sub_bucket_half_count + h.sub_bucket_half_count) <<<
        ((j >>> h.sub_bucket_half_count_magnitude - 1) + h.unit_magnitude)) = j
    rw [hrow, hmod, ← hH, ← hb, Nat.shiftLeft_eq]
    have hgb : get_bucket_index h ((r + H) * 2 ^ (b + h.unit_magnitude)) = b := by
      apply get_bucket_index_of_sandwich
      · calc 2 ^ (h.unit_magnitude + h.sub_bucket_half_count_magnitude + b) =
            H * 2 ^ (b + h.unit_magnitude) := by
              rw [hH, W.half_eq, ← pow_add]
              congr 1
              omega
        _ ≤ (r + H) * 2 ^ (b + h.unit_magnitude) :=
          Nat.mul_le_mul_right _ (by omega)
      · calc (r + H) * 2 ^ (b + h.unit_magnitude) <
            (2 * H) * 2 ^ (b + h.unit_magnitude) :=
            (Nat.mul_lt_mul_right (Nat.two_pow_pos _)).2 (by omega)
        _ = 2 ^ (h.unit_magnitude + h.sub_bucket_half_count_magnitude + 1 + b) := by
          rw [hH, W.half_eq]
          rw [show 2 * 2 ^ h.sub_bucket_half_count_magnitude =
            2 ^ (h.sub_bucket_half_count_magnitude + 1) by rw [pow_succ]; ring]
          rw [← pow_add]
          congr 1
          omega
    rw [counts_index_for_eq, hgb]
    unfold get_sub_bucket_index
    rw [Nat.shiftRight_eq_div_pow, Nat.mul_div_cancel _ (Nat.two_pow_pos _)]
    have hex2 : b * h.sub_bucket_half_count = b * H := by rw [← hH]
    have hex : b * H + (r + H) = H * (b + 1) + r := by ring
    omega

theorem get_bucket_index_mono (h : hdr_histogram) (v w : Nat) (hvw : v ≤ w) :
    get_bucket_index h v ≤ get_bucket_index h w := by
  unfold get_bucket_index
  rw [log2floor_eq, log2floor_eq]
  have := log2_mono v w hvw
  omega

theorem counts_index_mono (h : hdr_histogram) (W : WfGeom h) (v w : Nat)
    (hvw : v ≤ w) : counts_index_for h v ≤ counts_index_for h w := by
  rw [counts_index_for_eq, counts_index_for_eq]
  set H := h.sub_bucket_half_count with hH
  have hHpos : 0 < H := by
    rw [hH, W.half_eq]
    exact Nat.two_pow_pos _
  have hbm := get_bucket_index_mono h v w hvw
  set bv := get_bucket_index h v with hbv
  set bw := get_bucket_index h w with hbw
  rcases Nat.eq_or_lt_of_le hbm with heq | hlt
  · rw [← heq]
    have hsm : get_sub_bucket_index v bv h.unit_magnitude ≤
        get_sub_bucket_index w bv h.unit_magnitude := by
      unfold get_sub_bucket_index
      rw [Nat.shiftRight_eq_div_pow, Nat.shiftRight_eq_div_pow]
      exact Nat.div_le_div_right hvw
    have hsw : get_sub_bucket_index w bv h.unit_magnitude =
        get_sub_bucket_index w bw h.unit_magnitude := by rw [heq]
    omega
  · have hsv : get_sub_bucket_index v bv h.unit_magnitude < 2 * H := by
      have hlt2 := sub_bucket_index_lt h v
      rw [two_pow_succ_shcm h W] at hlt2
      rw [← hbv] at hlt2
      omega
    have hsw : H ≤ get_sub_bucket_index w bw h.unit_magnitude := by
      have hb1 : 1 ≤ get_bucket_index h w := by omega
      have hge := half_le_sub_bucket_index h w hb1
      rw [← hbw] at hge
      rw [hH, W.half_eq]
      exact hge
    have hmul : (bv + 2) * H ≤ (bw + 1) * H :=
      Nat.mul_le_mul_right H (by omega)
    have he1 : (bv + 2) * H = bv * H + 2 * H := by ring
    have he2 : (bw + 1) * H = bw * H + H := by ring
    omega

/-! ## List counter helpers -/

theorem getD_set_self (l : List Nat) (i x : Nat) (hi : i < l.length) :
    (l.set i x).getD i 0 = x := by
  induction l generalizing i with
  | nil => simp at hi
  | cons c rest ih =>
    cases i with
    | zero => rfl
    | succ j =>
      simp only [List.set, List.getD, List.getElem?_cons_succ] at *
      exact ih j (by simpa using hi)

theorem getD_set_ne (l : List Nat) (i j x : Nat) (hij : j ≠ i) :
    (l.set i x).getD j 0 = l.getD j 0 := by
  induction l generalizing i j with
  | nil => rfl
  | cons c rest ih =>
    cases i with
    | zero =>
      cases j with
      | zero => omega
      | succ j2 => rfl
    | succ i2 =>
      cases j with
      | zero => rfl
      | succ j2 =>
        simp only [List.set, List.getD, List.getElem?_cons_succ]
        exact ih i2 j2 (by omega)

theorem sum_set_add (l : List Nat) (i c : Nat) (hi : i < l.length) :
    (l.set i (l.getD i 0 + c)).sum = l.sum + c := by
  induction l generalizing i with
  | nil => simp at hi
  | cons hd rest ih =>
    cases i with
    | zero =>
      simp [List.set, List.getD]
      omega
    | succ j =>
      have hj : j < rest.length := by simpa using hi
      have hstep : (hd :: rest).getD (j + 1) 0 = rest.getD j 0 := rfl
      show (hd :: rest.set j ((hd :: rest).getD (j + 1) 0 + c)).sum =
        (hd :: rest).sum + c
      rw [hstep]
      simp only [List.sum_cons]
      rw [ih j hj]
      omega

/-! ## Recorder unfolding lemmas -/

theorem hdr_record_values_pos (h : hdr_histogram) (value : Int) (count : Nat)
    (hv0 : 0 ≤ value) (hidx : counts_index_for h value.toNat < h.counts_len) :
    hdr_record_values h value count =
      (true, { h with
        counts := h.counts.set (counts_index_for h value.toNat)
          (h.counts.getD (counts_index_for h value.toNat) 0 + count)
        total_count := h.total_count + count
        min_value := if value.toNat ≠ 0 ∧ value.toNat < h.min_value then
          value.toNat else h.min_value
        max_value := max h.max_value value.toNat }) := by
  unfold hdr_record_values
  rw [if_neg (by omega), if_pos hidx]

theorem hdr_record_values_oob (h : hdr_histogram) (value : Int) (count : Nat)
    (hv0 : 0 ≤ value)
    (hidx : ¬ counts_index_for h value.toNat < h.counts_len) :
    hdr_record_values h value count = (false, h) := by
  unfold hdr_record_values
  rw [if_neg (by omega), if_neg hidx]

/-! ## Claim C1 -/

theorem error_width_cases (h : hdr_histogram) (W : WfGeom h) (v : Nat) :
    10 ^ h.significant_figures *
      (hdr_highest_equivalent_value h v - hdr_lowest_equivalent_value h v) ≤ v ∨
    hdr_highest_equivalent_value h v - hdr_lowest_equivalent_value h v =
      2 ^ h.unit_magnitude - 1 := by
  have hsize := size_spec h v
  have hwidth : hdr_highest_equivalent_value h v -
      hdr_lowest_equivalent_value h v =
      hdr_size_of_equivalent_value_range h v - 1 := by
    unfold hdr_highest_equivalent_value
    have h1 : 1 ≤ hdr_size_of_equivalent_value_range h v := by
      rw [hsize]
      exact Nat.one_le_two_pow
    omega
  rcases Nat.eq_zero_or_pos (get_bucket_index h v) with hb | hb
  · right
    rw [hwidth, hsize, hb]
    have hz : (0 : Nat) + h.unit_magnitude = h.unit_magnitude := by omega
    rw [hz]
  · left
    rw [hwidth, hsize]
    set b := get_bucket_index h v with hbdef
    set P := 2 ^ (b + h.unit_magnitude) with hP
    set Q := 2 ^ h.sub_bucket_half_count_magnitude with hQ
    have hsig : 10 ^ h.significant_figures ≤ Q := by
      rw [hQ, ← W.half_eq]
      exact W.sig_le
    have hQP : Q * P ≤ v := by
      have hle := two_pow_le_value_of_bucket_pos h v hb
      calc Q * P =
          2 ^ (h.unit_magnitude + h.sub_bucket_half_count_magnitude + b) := by
            rw [hQ, hP, ← pow_add]
            congr 1
            omega
      _ ≤ v := hle
    have hP1 : 1 ≤ P := Nat.one_le_two_pow
    have hmul : 10 ^ h.significant_figures * (P - 1) ≤ Q * (P - 1) :=
      Nat.mul_le_mul_right _ hsig
    have hstep : Q * (P - 1) ≤ Q * P := Nat.mul_le_mul_left Q (by omega)
    exact le_trans (le_trans hmul hstep) hQP

/-- Claim C1 (amended): for a histogram built by `hdr_init(l, hi, s)` and an
in-range value `v`, either the equivalence-range width obeys the claimed
relative-error bound, `10^s * (highest_equivalent(v) - lowest_equivalent(v)) ≤
v` (the claim's `|highest_equivalent(v) - lowest_equivalent(v)| / v ≤ 10^(-s)`
with the division cleared), or `v` lies in bucket 0, where the width is exactly
one unit, `2^unit_magnitude - 1` — which for `lowest_trackable_value > 1`
(`unit_magnitude > 0`) can exceed the claimed bound, as `C1_refutation`
shows.  In particular the original bound holds whenever
`lowest_trackable_value = 1`. -/
theorem C1_relative_error_bound (l hi s : Nat) (hl : 1 ≤ l) (hhi : 2 * l ≤ hi)
    (hs1 : 1 ≤ s) (hs5 : s ≤ 5) (v : Nat) (hv1 : l ≤ v) (hv2 : v ≤ hi) :
    10 ^ s * (hdr_highest_equivalent_value (mkHistogram l hi s) v -
      hdr_lowest_equivalent_value (mkHistogram l hi s) v) ≤ v ∨
    hdr_highest_equivalent_value (mkHistogram l hi s) v -
      hdr_lowest_equivalent_value (mkHistogram l hi s) v =
      2 ^ (mkHistogram l hi s).unit_magnitude - 1 := by
  have W := wfGeom_mkHistogram l hi s hl hhi hs1 hs5
  have hfig : (mkHistogram l hi s).significant_figures = s := rfl
  have hcases := error_width_cases (mkHistogram l hi s) W v
  rw [hfig] at hcases
  exact hcases

/-- Claim C1, original statement refuted: on `hdr_init(2, 1000, 1)` the
in-range value `v = 2` has equivalent range `[2, 3]`, so
`10^sig_figs * (highest_equivalent(v) - lowest_equivalent(v)) = 10 > 2 = v`:
the relative error `1/2` exceeds `10^(-1)`. -/
theorem C1_refutation :
    (mkHistogram 2 1000 1).lowest_trackable_value ≤ 2 ∧
    2 ≤ (mkHistogram 2 1000 1).highest_trackable_value ∧
    ¬ (10 ^ (mkHistogram 2 1000 1).significant_figures *
      (hdr_highest_equivalent_value (mkHistogram 2 1000 1) 2 -
        hdr_lowest_equivalent_value (mkHistogram 2 1000 1) 2) ≤ 2) := by
  decide

/-- Witness for `C1_relative_error_bound` at `hdr_init(1, 1000, 1)`, `v = 500`. -/
theorem C1_witness :
    10 ^ 1 * (hdr_highest_equivalent_value (mkHistogram 1 1000 1) 500 -
      hdr_lowest_equivalent_value (mkHistogram 1 1000 1) 500) ≤ 500 ∨
    hdr_highest_equivalent_value (mkHistogram 1 1000 1) 500 -
      hdr_lowest_equivalent_value (mkHistogram 1 1000 1) 500 =
      2 ^ (mkHistogram 1 1000 1).unit_magnitude - 1 :=
  C1_relative_error_bound 1 1000 1 (by decide) (by decide) (by decide)
    (by decide) 500 (by decide) (by decide)

/-! ## Claim C2 -/

/-- Claim C2: the index/value codec round-trips: for every histogram built by
`hdr_init(l, hi, s)` and every `v` in `[lowest_trackable_value,
highest_trackable_value]`,
`index_at(value_at_index(index_at(v))) = index_at(v)` — `counts_index` and the
`(bucket_index, sub_bucket_index)` pair are mutually derivable without loss. -/
theorem C2_index_roundtrip (l hi s : Nat) (hl : 1 ≤ l) (hhi : 2 * l ≤ hi)
    (hs1 : 1 ≤ s) (hs5 : s ≤ 5) (v : Nat) (hv1 : l ≤ v) (hv2 : v ≤ hi) :
    counts_index_for (mkHistogram l hi s)
      (hdr_value_at_index (mkHistogram l hi s)
        (counts_index_for (mkHistogram l hi s) v)) =
      counts_index_for (mkHistogram l hi s) v :=
  counts_index_value_at_index (mkHistogram l hi s)
    (wfGeom_mkHistogram l hi s hl hhi hs1 hs5) (counts_index_for
      (mkHistogram l hi s) v)

/-- Witness for `C2_index_roundtrip` at `hdr_init(1, 1000, 1)`, `v = 500`. -/
theorem C2_witness :
    counts_index_for (mkHistogram 1 1000 1)
      (hdr_value_at_index (mkHistogram 1 1000 1)
        (counts_index_for (mkHistogram 1 1000 1) 500)) =
      counts_index_for (mkHistogram 1 1000 1) 500 :=
  C2_index_roundtrip 1 1000 1 (by decide) (by decide) (by decide) (by decide)
    500 (by decide) (by decide)

/-! ## Claim C3 -/

/-- The largest value whose counts index still falls inside the counts array:
the top of the last bucket row, `2^(unit_magnitude +
sub_bucket_half_count_magnitude + bucket_count) - 1`.  It is at least
`highest_trackable_value` (`WfGeom.cover`), and the recorder rejects exactly
the values above it. -/
def highest_covered_value (h : hdr_histogram) : Nat :=
  2 ^ (h.unit_magnitude + h.sub_bucket_half_count_magnitude + h.bucket_count)
    - 1

/-- Claim C3 (amended): `hdr_record_value(h, v)` returns false and leaves the
histogram unchanged for every `v` greater than the histogram's largest covered
value `highest_covered_value h` (the top of the counts array's range), a bound
that is at least `highest_trackable_value`.  Values in the gap
`(highest_trackable_value, highest_covered_value]` are still recorded — on
`hdr_init(1, 100, 3)` the first rejected value is 2048, not 101
(`C3_refutation`). -/
theorem C3_out_of_range_unchanged (h : hdr_histogram) (W : WfGeom h)
    (value : Int) (hv : (highest_covered_value h : Int) < value) :
    hdr_record_value h value = (false, h) ∧
    h.highest_trackable_value ≤ highest_covered_value h := by
  have hpow := Nat.one_le_two_pow (n := h.unit_magnitude +
    h.sub_bucket_half_count_magnitude + h.bucket_count)
  have hcov := W.cover
  constructor
  · have hv0 : (0 : Int) ≤ value := by
      have : (0 : Int) ≤ (highest_covered_value h : Int) :=
        Int.natCast_nonneg _
      omega
    apply hdr_record_values_oob h value 1 hv0
    rw [counts_index_lt_iff h W]
    unfold highest_covered_value at hv
    omega
  · unfold highest_covered_value
    omega

/-- Claim C3, original statement refuted: on a fresh `hdr_init(1, 100, 3)`
histogram, recording the value 101 — larger than
`highest_trackable_value = 100` — returns true and bumps `total_count` to 1,
because 101 still falls inside the counts array (which covers up to 2047). -/
theorem C3_refutation :
    (mkHistogram 1 100 3).highest_trackable_value = 100 ∧
    (hdr_record_value (mkHistogram 1 100 3) 101).1 = true ∧
    (hdr_record_value (mkHistogram 1 100 3) 101).2.total_count = 1 := by
  decide

/-- Witness for `C3_out_of_range_unchanged`: `hdr_init(1, 100, 3)` rejects
2048 unchanged. -/
theorem C3_witness :
    hdr_record_value (mkHistogram 1 100 3) 2048 = (false, mkHistogram 1 100 3) ∧
    (mkHistogram 1 100 3).highest_trackable_value ≤
      highest_covered_value (mkHistogram 1 100 3) :=
  C3_out_of_range_unchanged (mkHistogram 1 100 3)
    (wfGeom_mkHistogram 1 100 3 (by decide) (by decide) (by decide) (by decide))
    2048 (by decide)

/-! ## Claim C4 -/

/-- Claim C4: `hdr_calculate_bucket_config` (and hence `hdr_init`) fails with
`EINVAL` exactly when `lowest_trackable_value < 1`, or
`highest_trackable_value < 2 * lowest_trackable_value`, or
`significant_figures` lies outside `{1..5}`; inside that domain construction
succeeds and yields the initialised histogram (allocation failure is an
environment event outside the model). -/
theorem C4_validation (l hi s : Int) :
    (hdr_calculate_bucket_config l hi s = Except.error EINVAL ↔
      (l < 1 ∨ hi < 2 * l ∨ s < 1 ∨ 5 < s)) ∧
    (¬ (l < 1 ∨ hi < 2 * l ∨ s < 1 ∨ 5 < s) →
      hdr_init l hi s = Except.ok (mkHistogram l.toNat hi.toNat s.toNat)) := by
  constructor
  · unfold hdr_calculate_bucket_config
    split
    · rename_i hc
      simp only [hc]
    · rename_i hc
      simp only [hc, iff_false]
      intro heq
      exact Except.noConfusion heq
  · intro hok
    unfold hdr_init hdr_calculate_bucket_config
    rw [if_neg hok]
    rfl

/-- Witness for `C4_validation`: `hdr_init(1, 100, 3)` succeeds. -/
theorem C4_witness :
    hdr_init 1 100 3 =
      Except.ok (mkHistogram (1 : Int).toNat (100 : Int).toNat
        (3 : Int).toNat) :=
  (C4_validation 1 100 3).2 (by decide)

/-! ## Claim C5 -/

/-- Claim C5 (amended): a value `0 ≤ v < lowest_trackable_value` is not
rejected: `hdr_record_value` returns true, increments `total_count`, and
counts `v` in the lowest bucket at counts index `v >>> unit_magnitude` — which
is 0 exactly when `v < 2^unit_magnitude`, but can be 1 for
`2^unit_magnitude ≤ v < lowest_trackable_value` (`C5_refutation`), so "counts
index 0" does not hold for all such `v`. -/
theorem C5_below_lowest_recorded (h : hdr_histogram) (W : WfGeom h)
    (hlen : h.counts.length = h.counts_len) (value : Int)
    (hv0 : 0 ≤ value) (hvl : value < (h.lowest_trackable_value : Int)) :
    (hdr_record_value h value).1 = true ∧
    (hdr_record_value h value).2.total_count = h.total_count + 1 ∧
    counts_index_for h value.toNat = value.toNat >>> h.unit_magnitude ∧
    (hdr_record_value h value).2.counts.getD
      (counts_index_for h value.toNat) 0 =
      h.counts.getD (counts_index_for h value.toNat) 0 + 1 := by
  set v := value.toNat with hvdef
  have hvlow : v < h.lowest_trackable_value := by omega
  have hlt1 : v < 2 ^ (h.unit_magnitude + 1) := lt_of_lt_of_le hvlow
    (le_of_lt W.low_lt)
  have hb0 : get_bucket_index h v = 0 := by
    apply get_bucket_index_eq_zero
    calc v < 2 ^ (h.unit_magnitude + 1) := hlt1
    _ ≤ 2 ^ (h.unit_magnitude + h.sub_bucket_half_count_magnitude + 1) :=
      Nat.pow_le_pow_right (by norm_num) (by omega)
  have hidx_eq : counts_index_for h v = v >>> h.unit_magnitude := by
    rw [counts_index_for_eq, hb0]
    unfold get_sub_bucket_index
    simp only [Nat.zero_mul, Nat.zero_add]
  have hidx_lt : counts_index_for h v < h.counts_len := by
    rw [counts_index_lt_iff h W]
    calc v < 2 ^ (h.unit_magnitude + 1) := hlt1
    _ ≤ 2 ^ (h.unit_magnitude + h.sub_bucket_half_count_magnitude +
        h.bucket_count) := by
      apply Nat.pow_le_pow_right (by norm_num)
      have := W.bc_ge
      have := W.shcm_ge
      omega
  have hrec := hdr_record_values_pos h value 1 hv0 hidx_lt
  unfold hdr_record_value
  rw [hrec]
  refine ⟨rfl, rfl, hidx_eq, ?_⟩
  exact getD_set_self h.counts (counts_index_for h v) _ (by omega)

/-- Claim C5, original statement refuted: on `hdr_init(3, 1000, 1)` the value
`v = 2 < lowest_trackable_value = 3` is recorded (returns true) but lands at
counts index 1, not index 0: index 0 stays at count 0. -/
theorem C5_refutation :
    (mkHistogram 3 1000 1).lowest_trackable_value = 3 ∧
    (hdr_record_value (mkHistogram 3 1000 1) 2).1 = true ∧
    counts_index_for (mkHistogram 3 1000 1) 2 = 1 ∧
    (hdr_record_value (mkHistogram 3 1000 1) 2).2.counts.getD 0 0 = 0 := by
  decide

/-- Witness for `C5_below_lowest_recorded`: `hdr_init(3, 1000, 1)`, `v = 2`. -/
theorem C5_witness :
    (hdr_record_value (mkHistogram 3 1000 1) 2).1 = true ∧
    (hdr_record_value (mkHistogram 3 1000 1) 2).2.total_count =
      (mkHistogram 3 1000 1).total_count + 1 ∧
    counts_index_for (mkHistogram 3 1000 1) (2 : Int).toNat =
      (2 : Int).toNat >>> (mkHistogram 3 1000 1).unit_magnitude ∧
    (hdr_record_value (mkHistogram 3 1000 1) 2).2.counts.getD
      (counts_index_for (mkHistogram 3 1000 1) (2 : Int).toNat) 0 =
      (mkHistogram 3 1000 1).counts.getD
        (counts_index_for (mkHistogram 3 1000 1) (2 : Int).toNat) 0 + 1 :=
  C5_below_lowest_recorded (mkHistogram 3 1000 1)
    (wfGeom_mkHistogram 3 1000 1 (by decide) (by decide) (by decide)
      (by decide))
    (by decide) 2 (by decide) (by decide)

/-! ## Claim C10 -/

/-- Two's-complement truncation of a 64-bit signed quantity to 32 bits, as the
C assignment `int32_t x = (int64_t) y` performs it. -/
def int32_of_int (n : Int) : Int := (n + 2 ^ 31) % 2 ^ 32 - 2 ^ 31

/-- Modelled from the spec (4.E): `hdr_iter_init` freezes "a snapshot of
`total_count` taken at initialisation" into the iterator's `total_count`
field, which the header declares as `int32_t` (line 399) while the
histogram's `total_count` (line 90) is a 64-bit counter; the store therefore
truncates to 32 bits. -/
def hdr_iter_total_count_snapshot (h : hdr_histogram) : Int :=
  int32_of_int (h.total_count : Int)

/-- Claim C10: the generic iterator's frozen `total_count` snapshot lives in a
32-bit field while the histogram's `total_count` is 64-bit, so the snapshot
equals the histogram's `total_count` exactly when `total_count ≤ 2^31 - 1`;
beyond that bound the truncated snapshot (and any termination comparison of
`cumulative_count` against it) no longer reflects the true total. -/
theorem C10_iter_snapshot_32bit (h : hdr_histogram) :
    hdr_iter_total_count_snapshot h = (h.total_count : Int) ↔
      h.total_count ≤ 2 ^ 31 - 1 := by
  unfold hdr_iter_total_count_snapshot int32_of_int
  have h1 : 0 ≤ ((h.total_count : Int) + 2 ^ 31) % 2 ^ 32 :=
    Int.emod_nonneg _ (by norm_num)
  have h2 : ((h.total_count : Int) + 2 ^ 31) % 2 ^ 32 < 2 ^ 32 :=
    Int.emod_lt_of_pos _ (by norm_num)
  constructor
  · intro heq
    omega
  · intro hle
    have heq2 : ((h.total_count : Int) + 2 ^ 31) % 2 ^ 32 =
        (h.total_count : Int) + 2 ^ 31 :=
      Int.emod_eq_of_lt (by omega) (by omega)
    omega

/-! ## Percentile query -/

/-- Modelled from the spec (4.D): the percentile walk over the counts: "walk
the counts in index order maintaining a running sum; at the first index where
running_sum ≥ t" stop and report that index.  The recursion carries the
remaining target `t - c` instead of the running sum, which is the same
stopping condition. -/
def findFirstGE : List Nat → Nat → Option Nat
  | [], _ => none
  | c :: rest, t =>
    if t ≤ c then some 0 else (findFirstGE rest (t - c)).map (· + 1)

/-- The last index holding a non-zero count (none when all counts are zero):
where the percentile walk for the full total stops. -/
def lastNonzeroIdx : List Nat → Option Nat
  | [] => none
  | c :: rest =>
    match lastNonzeroIdx rest with
    | some j => some (j + 1)
    | none => if c ≠ 0 then some 0 else none

/-- Modelled from the spec (4.D): `value_at_percentile(p)`: clamp `p` to
`[0, 100]`; compute the target count `t = ⌈(p/100) * total_count⌉` (exact
rational arithmetic, so the spec's boundary rounding never produces a tie);
walk the counts in index order and stop at the first index whose running sum
reaches `t`; return the `highest_equivalent` of that index's value for
`p > 0` and the `lowest_equivalent` for `p = 0`.  If the walk exhausts the
array (impossible when `total_count` agrees with the counts), return 0.
Declared as `hdr_value_at_percentile` (header lines 294-300); the C
`percentile` parameter is a `double`, modelled as an exact rational. -/
def hdr_value_at_percentile (h : hdr_histogram) (percentile : ℚ) : Nat :=
  let requested := max 0 (min percentile 100)
  let target := (Int.ceil (requested * (h.total_count : ℚ) / 100)).toNat
  match findFirstGE h.counts target with
  | some idx =>
    if requested = 0 then
      hdr_lowest_equivalent_value h (hdr_value_at_index h idx)
    else
      hdr_highest_equivalent_value h (hdr_value_at_index h idx)
  | none => 0

theorem findFirstGE_zero (l : List Nat) (hne : l ≠ []) :
    findFirstGE l 0 = some 0 := by
  cases l with
  | nil => exact absurd rfl hne
  | cons c rest =>
    unfold findFirstGE
    rw [if_pos (Nat.zero_le c)]

theorem findFirstGE_some_of_le_sum (l : List Nat) (t : Nat) (hne : l ≠ [])
    (hle : t ≤ l.sum) : ∃ i, findFirstGE l t = some i := by
  induction l generalizing t with
  | nil => exact absurd rfl hne
  | cons c rest ih =>
    unfold findFirstGE
    by_cases hc : t ≤ c
    · exact ⟨0, by rw [if_pos hc]⟩
    · rw [if_neg hc]
      have hrne : rest ≠ [] := by
        intro hr
        rw [hr] at hle
        simp at hle
        omega
      have hrle : t - c ≤ rest.sum := by
        simp only [List.sum_cons] at hle
        omega
      obtain ⟨i, hi⟩ := ih (t - c) hrne hrle
      exact ⟨i + 1, by rw [hi]; rfl⟩

theorem findFirstGE_mono (l : List Nat) (t1 t2 i1 i2 : Nat) (ht : t1 ≤ t2)
    (h1 : findFirstGE l t1 = some i1) (h2 : findFirstGE l t2 = some i2) :
    i1 ≤ i2 := by
  induction l generalizing t1 t2 i1 i2 with
  | nil => simp [findFirstGE] at h1
  | cons c rest ih =>
    unfold findFirstGE at h1 h2
    by_cases hc2 : t2 ≤ c
    · rw [if_pos (le_trans ht hc2)] at h1
      rw [if_pos hc2] at h2
      simp at h1 h2
      omega
    · rw [if_neg hc2] at h2
      by_cases hc1 : t1 ≤ c
      · rw [if_pos hc1] at h1
        simp at h1
        omega
      · rw [if_neg hc1] at h1
        obtain ⟨j1, hj1, hj1e⟩ : ∃ j1, findFirstGE rest (t1 - c) = some j1 ∧
            i1 = j1 + 1 := by
          cases hf : findFirstGE rest (t1 - c) with
          | none => rw [hf] at h1; simp at h1
          | some j => rw [hf] at h1; simp at h1; exact ⟨j, rfl, h1.symm⟩
        obtain ⟨j2, hj2, hj2e⟩ : ∃ j2, findFirstGE rest (t2 - c) = some j2 ∧
            i2 = j2 + 1 := by
          cases hf : findFirstGE rest (t2 - c) with
          | none => rw [hf] at h2; simp at h2
          | some j => rw [hf] at h2; simp at h2; exact ⟨j, rfl, h2.symm⟩
        have := ih (t1 - c) (t2 - c) j1 j2 (by omega) hj1 hj2
        omega

theorem lastNonzeroIdx_none_iff (l : List Nat) :
    lastNonzeroIdx l = none ↔ l.sum = 0 := by
  induction l with
  | nil => simp [lastNonzeroIdx]
  | cons c rest ih =>
    unfold lastNonzeroIdx
    cases hr : lastNonzeroIdx rest with
    | some j =>
      simp only [List.sum_cons]
      constructor
      · intro hh
        exact Option.noConfusion hh
      · intro hh
        rw [hr] at ih
        have : rest.sum = 0 := by omega
        have := ih.2 this
        exact Option.noConfusion this
    | none =>
      rw [hr] at ih
      have hsum0 : rest.sum = 0 := ih.1 rfl
      simp only [List.sum_cons, hsum0]
      by_cases hc : c = 0
      · simp [hc]
      · simp [hc]

theorem findFirstGE_sum_eq_lastNonzero (l : List Nat) (hpos : 0 < l.sum) :
    findFirstGE l l.sum = lastNonzeroIdx l := by
  induction l with
  | nil => simp at hpos
  | cons c rest ih =>
    simp only [List.sum_cons] at hpos ⊢
    unfold findFirstGE lastNonzeroIdx
    by_cases hrs : rest.sum = 0
    · have hc : 0 < c := by omega
      rw [if_pos (by omega : c + rest.sum ≤ c)]
      have hnone : lastNonzeroIdx rest = none := (lastNonzeroIdx_none_iff rest).2 hrs
      rw [hnone]
      simp [show c ≠ 0 by omega]
    · have hrpos : 0 < rest.sum := by omega
      rw [if_neg (by omega : ¬ (c + rest.sum ≤ c))]
      have harg : c + rest.sum - c = rest.sum := by omega
      rw [harg, ih hrpos]
      cases hlast : lastNonzeroIdx rest with
      | some j => rfl
      | none =>
        rw [(lastNonzeroIdx_none_iff rest).1 hlast] at hrpos
        omega

theorem value_at_index_low (h : hdr_histogram) (j : Nat)
    (hj : j < h.sub_bucket_half_count) :
    hdr_value_at_index h j = j * 2 ^ h.unit_magnitude := by
  unfold hdr_value_at_index
  rw [if_pos hj, Nat.shiftLeft_eq]

theorem value_at_index_row (h : hdr_histogram) (W : WfGeom h) (j : Nat)
    (hj : h.sub_bucket_half_count ≤ j) :
    hdr_value_at_index h j =
      (j % h.sub_bucket_half_count + h.sub_bucket_half_count) *
        2 ^ ((j / h.sub_bucket_half_count - 1) + h.unit_magnitude) := by
  unfold hdr_value_at_index
  rw [if_neg (by omega), Nat.shiftLeft_eq, Nat.shiftRight_eq_div_pow,
    ← W.half_eq]

theorem gbi_value_at_low (h : hdr_histogram) (W : WfGeom h) (j : Nat)
    (hj : j < h.sub_bucket_half_count) :
    get_bucket_index h (hdr_value_at_index h j) = 0 := by
  rw [value_at_index_low h j hj]
  apply get_bucket_index_eq_zero
  calc j * 2 ^ h.unit_magnitude <
      h.sub_bucket_half_count * 2 ^ h.unit_magnitude :=
      (Nat.mul_lt_mul_right (Nat.two_pow_pos _)).2 hj
  _ = 2 ^ (h.unit_magnitude + h.sub_bucket_half_count_magnitude) := by
    rw [W.half_eq, ← pow_add]
    congr 1
    omega
  _ < 2 ^ (h.unit_magnitude + h.sub_bucket_half_count_magnitude + 1) :=
    Nat.pow_lt_pow_right (by norm_num) (by omega)

theorem gbi_value_at_row (h : hdr_histogram) (W : WfGeom h) (j : Nat)
    (hj : h.sub_bucket_half_count ≤ j) :
    get_bucket_index h (hdr_value_at_index h j) =
      j / h.sub_bucket_half_count - 1 := by
  have hHpos : 0 < h.sub_bucket_half_count := by
    rw [W.half_eq]
    exact Nat.two_pow_pos _
  have hrlt : j % h.sub_bucket_half_count < h.sub_bucket_half_count :=
    Nat.mod_lt _ hHpos
  rw [value_at_index_row h W j hj]
  have hlow2 : 2 ^ (h.unit_magnitude + h.sub_bucket_half_count_magnitude +
      (j / h.sub_bucket_half_count - 1)) =
      h.sub_bucket_half_count *
        2 ^ ((j / h.sub_bucket_half_count - 1) + h.unit_magnitude) := by
    rw [W.half_eq, ← pow_add]
    congr 1
    omega
  have hhi2 : (2 * h.sub_bucket_half_count) *
      2 ^ ((j / h.sub_bucket_half_count - 1) + h.unit_magnitude) =
      2 ^ (h.unit_magnitude + h.sub_bucket_half_count_magnitude + 1 +
        (j / h.sub_bucket_half_count - 1)) := by
    rw [W.half_eq]
    rw [show 2 * 2 ^ h.sub_bucket_half_count_magnitude =
      2 ^ (h.sub_bucket_half_count_magnitude + 1) by rw [pow_succ]; ring]
    rw [← pow_add]
    congr 1
    omega
  apply get_bucket_index_of_sandwich
  · rw [hlow2]
    exact Nat.mul_le_mul_right _ (by omega)
  · rw [← hhi2]
    exact (Nat.mul_lt_mul_right (Nat.two_pow_pos _)).2 (by omega)

theorem value_at_index_succ (h : hdr_histogram) (W : WfGeom h) (j : Nat) :
    hdr_value_at_index h (j + 1) =
      hdr_value_at_index h j +
        2 ^ (get_bucket_index h (hdr_value_at_index h j) +
          h.unit_magnitude) := by
  have hHpos : 0 < h.sub_bucket_half_count := by
    rw [W.half_eq]
    exact Nat.two_pow_pos _
  rcases Nat.lt_or_ge j h.sub_bucket_half_count with hj | hj
  · rw [gbi_value_at_low h W j hj, value_at_index_low h j hj]
    simp only [Nat.zero_add]
    rcases Nat.lt_or_ge (j + 1) h.sub_bucket_half_count with hj1 | hj1
    · rw [value_at_index_low h (j + 1) hj1]
      ring
    · have hjH : j + 1 = h.sub_bucket_half_count := by omega
      rw [value_at_index_row h W (j + 1) hj1, hjH]
      rw [Nat.mod_self, Nat.div_self hHpos]
      simp only [Nat.zero_add, Nat.sub_self, Nat.zero_add]
      rw [← hjH]
      ring
  · have hq1 : 1 ≤ j / h.sub_bucket_half_count :=
      (Nat.one_le_div_iff hHpos).2 hj
    have hrlt : j % h.sub_bucket_half_count < h.sub_bucket_half_count :=
      Nat.mod_lt _ hHpos
    have hdm : h.sub_bucket_half_count * (j / h.sub_bucket_half_count) +
        j % h.sub_bucket_half_count = j := Nat.div_add_mod j _
    rw [gbi_value_at_row h W j hj, value_at_index_row h W j hj]
    rcases Nat.lt_or_ge (j % h.sub_bucket_half_count + 1)
      h.sub_bucket_half_count with hr1 | hr1
    · -- same row
      have hj1 : j + 1 = h.sub_bucket_half_count *
          (j / h.sub_bucket_half_count) +
          (j % h.sub_bucket_half_count + 1) := by omega
      have hdiv : (j + 1) / h.sub_bucket_half_count =
          j / h.sub_bucket_half_count := by
        rw [hj1, Nat.mul_add_div hHpos, Nat.div_eq_of_lt hr1]
        omega
      have hmod : (j + 1) % h.sub_bucket_half_count =
          j % h.sub_bucket_half_count + 1 := by
        rw [hj1, Nat.mul_add_mod, Nat.mod_eq_of_lt hr1]
      rw [value_at_index_row h W (j + 1) (by omega), hdiv, hmod]
      ring
    · -- last slot of the row: move to the next row
      have hrH : j % h.sub_bucket_half_count + 1 = h.sub_bucket_half_count :=
        by omega
      have hstep : h.sub_bucket_half_count *
          (j / h.sub_bucket_half_count + 1) =
          h.sub_bucket_half_count * (j / h.sub_bucket_half_count) +
            h.sub_bucket_half_count := by ring
      have hj1 : j + 1 = h.sub_bucket_half_count *
          (j / h.sub_bucket_half_count + 1) := by omega
      have hdiv : (j + 1) / h.sub_bucket_half_count =
          j / h.sub_bucket_half_count + 1 := by
        rw [hj1, Nat.mul_div_cancel_left _ hHpos]
      have hmod : (j + 1) % h.sub_bucket_half_count = 0 := by
        rw [hj1]
        exact Nat.mul_mod_right _ _
      rw [value_at_index_row h W (j + 1) (by omega), hdiv, hmod]
      simp only [Nat.zero_add, Nat.add_sub_cancel]
      have hexp : 2 ^ (j / h.sub_bucket_half_count + h.unit_magnitude) =
          2 * 2 ^ ((j / h.sub_bucket_half_count - 1) + h.unit_magnitude) := by
        rw [← pow_succ']
        congr 1
        omega
      calc h.sub_bucket_half_count *
          2 ^ (j / h.sub_bucket_half_count + h.unit_magnitude) =
          (2 * h.sub_bucket_half_count) *
            2 ^ ((j / h.sub_bucket_half_count - 1) + h.unit_magnitude) := by
            rw [hexp]
            ring
      _ = (j % h.sub_bucket_half_count + h.sub_bucket_half_count) *
            2 ^ ((j / h.sub_bucket_half_count - 1) + h.unit_magnitude) +
          2 ^ ((j / h.sub_bucket_half_count - 1) + h.unit_magnitude) := by
        have h2H : 2 * h.sub_bucket_half_count =
            (j % h.sub_bucket_half_count + h.sub_bucket_half_count) + 1 := by
          omega
        rw [h2H]
        ring

theorem value_at_index_mono (h : hdr_histogram) (W : WfGeom h) (i j : Nat)
    (hij : i ≤ j) : hdr_value_at_index h i ≤ hdr_value_at_index h j := by
  induction hij with
  | refl => exact Nat.le_refl _
  | @step m hm ih =>
    calc hdr_value_at_index h i ≤ hdr_value_at_index h m := ih
    _ ≤ hdr_value_at_index h (m + 1) := by
      rw [value_at_index_succ h W m]
      exact Nat.le_add_right _ _

theorem lowest_eq_value_at_index (h : hdr_histogram) (W : WfGeom h) (j : Nat) :
    hdr_lowest_equivalent_value h (hdr_value_at_index h j) =
      hdr_value_at_index h j := by
  rcases Nat.lt_or_ge j h.sub_bucket_half_count with hj | hj
  · rw [lowest_equivalent_spec, gbi_value_at_low h W j hj,
      value_at_index_low h j hj]
    simp only [Nat.zero_add]
    rw [Nat.mul_div_cancel _ (Nat.two_pow_pos _)]
  · rw [lowest_equivalent_spec, gbi_value_at_row h W j hj,
      value_at_index_row h W j hj]
    rw [Nat.mul_div_cancel _ (Nat.two_pow_pos _)]

theorem highest_eq_value_at_succ (h : hdr_histogram) (W : WfGeom h) (j : Nat) :
    hdr_highest_equivalent_value h (hdr_value_at_index h j) + 1 =
      hdr_value_at_index h (j + 1) := by
  unfold hdr_highest_equivalent_value
  rw [lowest_eq_value_at_index h W j, size_spec, value_at_index_succ h W j]
  have := Nat.one_le_two_pow (n := get_bucket_index h
    (hdr_value_at_index h j) + h.unit_magnitude)
  omega

theorem highest_eq_value_at_mono (h : hdr_histogram) (W : WfGeom h)
    (i j : Nat) (hij : i ≤ j) :
    hdr_highest_equivalent_value h (hdr_value_at_index h i) ≤
      hdr_highest_equivalent_value h (hdr_value_at_index h j) := by
  have h1 := highest_eq_value_at_succ h W i
  have h2 := highest_eq_value_at_succ h W j
  have h3 := value_at_index_mono h W (i + 1) (j + 1) (by omega)
  omega

theorem vap_unfold (h : hdr_histogram) (p : ℚ) (hp0 : 0 ≤ p)
    (hp100 : p ≤ 100) :
    hdr_value_at_percentile h p =
      match findFirstGE h.counts
        (Int.ceil (p * (h.total_count : ℚ) / 100)).toNat with
      | some idx =>
        if p = 0 then
          hdr_lowest_equivalent_value h (hdr_value_at_index h idx)
        else
          hdr_highest_equivalent_value h (hdr_value_at_index h idx)
      | none => 0 := by
  unfold hdr_value_at_percentile
  rw [min_eq_left hp100, max_eq_right hp0]

theorem counts_nonempty (h : hdr_histogram) (W : WfGeom h)
    (hlen : h.counts.length = h.counts_len) : h.counts ≠ [] := by
  apply List.ne_nil_of_length_pos
  rw [hlen, W.len_eq]
  have hHpos : 0 < h.sub_bucket_half_count := by
    rw [W.half_eq]
    exact Nat.two_pow_pos _
  exact Nat.mul_pos (by omega) hHpos

theorem value_le_highest_eq_value_at (h : hdr_histogram) (W : WfGeom h)
    (j : Nat) :
    hdr_value_at_index h j ≤
      hdr_highest_equivalent_value h (hdr_value_at_index h j) := by
  unfold hdr_highest_equivalent_value
  rw [lowest_eq_value_at_index h W j, size_spec]
  have := Nat.one_le_two_pow (n := get_bucket_index h
    (hdr_value_at_index h j) + h.unit_magnitude)
  omega

/-- Claim C7: percentile monotonicity: for every histogram and percentiles
`0 ≤ p1 ≤ p2 ≤ 100`,
`hdr_value_at_percentile h p1 ≤ hdr_value_at_percentile h p2`.  The histogram
is assumed well-formed: geometry from `hdr_init` and `total_count` consistent
with the counts array, which every `record` sequence maintains. -/
theorem C7_percentile_monotone (h : hdr_histogram) (W : WfGeom h)
    (hlen : h.counts.length = h.counts_len)
    (hsum : h.total_count = h.counts.sum) (p1 p2 : ℚ) (hp0 : 0 ≤ p1)
    (h12 : p1 ≤ p2) (hp100 : p2 ≤ 100) :
    hdr_value_at_percentile h p1 ≤ hdr_value_at_percentile h p2 := by
  have hp10 : p1 ≤ 100 := le_trans h12 hp100
  have hp20 : 0 ≤ p2 := le_trans hp0 h12
  have hne := counts_nonempty h W hlen
  have hT0 : (0 : ℚ) ≤ (h.total_count : ℚ) := Nat.cast_nonneg _
  have htm : (Int.ceil (p1 * (h.total_count : ℚ) / 100)).toNat ≤
      (Int.ceil (p2 * (h.total_count : ℚ) / 100)).toNat := by
    apply Int.toNat_le_toNat
    apply Int.ceil_mono
    gcongr
  have ht2sum : (Int.ceil (p2 * (h.total_count : ℚ) / 100)).toNat ≤
      h.counts.sum := by
    have hle : p2 * (h.total_count : ℚ) / 100 ≤ (h.total_count : ℚ) := by
      rw [div_le_iff (by norm_num : (0 : ℚ) < 100)]
      calc p2 * (h.total_count : ℚ) ≤ 100 * (h.total_count : ℚ) := by gcongr
      _ = (h.total_count : ℚ) * 100 := by ring
    calc (Int.ceil (p2 * (h.total_count : ℚ) / 100)).toNat ≤
        (Int.ceil ((h.total_count : ℚ))).toNat :=
        Int.toNat_le_toNat (Int.ceil_mono hle)
    _ = h.total_count := by rw [Int.ceil_natCast, Int.toNat_natCast]
    _ = h.counts.sum := hsum
  obtain ⟨i2, hi2⟩ := findFirstGE_some_of_le_sum h.counts _ hne ht2sum
  obtain ⟨i1, hi1⟩ := findFirstGE_some_of_le_sum h.counts _ hne
    (le_trans htm ht2sum)
  have hij := findFirstGE_mono h.counts _ _ i1 i2 htm hi1 hi2
  rw [vap_unfold h p1 hp0 hp10, vap_unfold h p2 hp20 hp100]
  simp only [hi1, hi2]
  by_cases hp2z : p2 = 0
  · have hp1z : p1 = 0 := le_antisymm (hp2z ▸ h12) hp0
    have hti : i1 = i2 := by
      rw [hp1z] at hi1
      rw [hp2z] at hi2
      rw [hi1] at hi2
      exact Option.some.inj hi2
    rw [if_pos hp1z, if_pos hp2z, hti]
  · rw [if_neg hp2z]
    by_cases hp1z : p1 = 0
    · rw [if_pos hp1z]
      calc hdr_lowest_equivalent_value h (hdr_value_at_index h i1) =
          hdr_value_at_index h i1 := lowest_eq_value_at_index h W i1
      _ ≤ hdr_value_at_index h i2 := value_at_index_mono h W i1 i2 hij
      _ ≤ hdr_highest_equivalent_value h (hdr_value_at_index h i2) :=
        value_le_highest_eq_value_at h W i2
    · rw [if_neg hp1z]
      exact highest_eq_value_at_mono h W i1 i2 hij

theorem vap_zero_eq (h : hdr_histogram) (W : WfGeom h)
    (hlen : h.counts.length = h.counts_len) :
    hdr_value_at_percentile h 0 = 0 := by
  have hne := counts_nonempty h W hlen
  have hHpos : 0 < h.sub_bucket_half_count := by
    rw [W.half_eq]
    exact Nat.two_pow_pos _
  rw [vap_unfold h 0 le_rfl (by norm_num)]
  have hz : (Int.ceil ((0 : ℚ) * (h.total_count : ℚ) / 100)).toNat = 0 := by
    rw [zero_mul, zero_div, Int.ceil_zero]
    rfl
  simp only [hz, findFirstGE_zero h.counts hne, if_true]
  have hv0 : hdr_value_at_index h 0 = 0 := by
    rw [value_at_index_low h 0 hHpos]
    simp
  rw [hv0, lowest_equivalent_spec]
  simp [Nat.zero_div]

/-- Claim C6 (amended): with at least one recorded value,
`value_at_percentile(100)` equals `highest_equivalent(hdr_max h)`, and
percentiles outside `[0, 100]` are clamped (`p ≥ 100` behaves as 100, `p ≤ 0`
as 0).  However `value_at_percentile(0)` returns 0 — the `lowest_equivalent`
at the first index the walk reaches, which for target count
`⌈0 * total⌉ = 0` is index 0 — and not `hdr_min h`, the exact smallest
recorded sample (`C6_refutation`). -/
theorem C6_percentile_bounds (h : hdr_histogram) (W : WfGeom h)
    (hlen : h.counts.length = h.counts_len)
    (hsum : h.total_count = h.counts.sum)
    (hmaxidx : lastNonzeroIdx h.counts =
      some (counts_index_for h h.max_value))
    (htot : 0 < h.total_count) (p3 p4 : ℚ) (hp3 : 100 ≤ p3) (hp4 : p4 ≤ 0) :
    hdr_value_at_percentile h 100 =
      hdr_highest_equivalent_value h (hdr_max h) ∧
    hdr_value_at_percentile h 0 = 0 ∧
    hdr_value_at_percentile h p3 = hdr_value_at_percentile h 100 ∧
    hdr_value_at_percentile h p4 = hdr_value_at_percentile h 0 := by
  have hne := counts_nonempty h W hlen
  have hHpos : 0 < h.sub_bucket_half_count := by
    rw [W.half_eq]
    exact Nat.two_pow_pos _
  refine ⟨?_, ?_, ?_, ?_⟩
  · -- p = 100
    rw [vap_unfold h 100 (by norm_num) le_rfl]
    have h100 : (100 : ℚ) * (h.total_count : ℚ) / 100 =
        (h.total_count : ℚ) :=
      mul_div_cancel_left₀ _ (by norm_num)
    have htarget : (Int.ceil ((100 : ℚ) * (h.total_count : ℚ) / 100)).toNat =
        h.total_count := by
      rw [h100, Int.ceil_natCast, Int.toNat_natCast]
    have hfind : findFirstGE h.counts
        (Int.ceil ((100 : ℚ) * (h.total_count : ℚ) / 100)).toNat =
        some (counts_index_for h h.max_value) := by
      rw [htarget, hsum, findFirstGE_sum_eq_lastNonzero h.counts
        (by omega), hmaxidx]
    simp only [hfind]
    rw [if_neg (by norm_num : ¬ (100 : ℚ) = 0)]
    rw [value_at_index_counts_index h W h.max_value,
      highest_equivalent_lowest_equivalent]
    rfl
  · -- p = 0
    exact vap_zero_eq h W hlen
  · -- clamping from above
    have hc3 : max 0 (min p3 100) = (100 : ℚ) := by
      rw [min_eq_right hp3]
      exact max_eq_right (by norm_num)
    have hc100 : max 0 (min (100 : ℚ) 100) = 100 := by
      rw [min_self]
      exact max_eq_right (by norm_num)
    unfold hdr_value_at_percentile
    rw [hc3, hc100]
  · -- clamping from below
    have hc4 : max 0 (min p4 100) = (0 : ℚ) := by
      rw [min_eq_left (le_trans hp4 (by norm_num))]
      exact max_eq_left hp4
    have hc0 : max 0 (min (0 : ℚ) 100) = 0 := by
      rw [min_eq_left (by norm_num)]
      exact max_eq_left le_rfl
    unfold hdr_value_at_percentile
    rw [hc4, hc0]

/-- Claim C6, original statement refuted: record the single value 500 into
`hdr_init(1, 1000, 1)`; then `hdr_min` returns 500 but
`hdr_value_at_percentile(0)` returns 0, because the target count for `p = 0`
is 0 and the walk stops at index 0 — so `value_at_percentile(0) ≠ min`. -/
theorem C6_refutation :
    hdr_min ((hdr_record_value (mkHistogram 1 1000 1) 500).2) = 500 ∧
    hdr_value_at_percentile ((hdr_record_value (mkHistogram 1 1000 1) 500).2)
      0 = 0 := by
  constructor
  · decide
  · exact vap_zero_eq _
      ⟨by decide, by decide, by decide, by decide, by decide, by decide,
        by decide, by decide, by decide, by decide⟩
      (by decide)

/-- Witness for `C6_percentile_bounds`: one value 500 recorded into
`hdr_init(1, 1000, 1)`, clamp probes at 150 and -1. -/
theorem C6_witness :
    hdr_value_at_percentile ((hdr_record_value (mkHistogram 1 1000 1) 500).2)
        100 =
      hdr_highest_equivalent_value
        ((hdr_record_value (mkHistogram 1 1000 1) 500).2)
        (hdr_max ((hdr_record_value (mkHistogram 1 1000 1) 500).2)) ∧
    hdr_value_at_percentile ((hdr_record_value (mkHistogram 1 1000 1) 500).2)
      0 = 0 ∧
    hdr_value_at_percentile ((hdr_record_value (mkHistogram 1 1000 1) 500).2)
        150 =
      hdr_value_at_percentile ((hdr_record_value (mkHistogram 1 1000 1) 500).2)
        100 ∧
    hdr_value_at_percentile ((hdr_record_value (mkHistogram 1 1000 1) 500).2)
        (-1) =
      hdr_value_at_percentile ((hdr_record_value (mkHistogram 1 1000 1) 500).2)
        0 :=
  C6_percentile_bounds ((hdr_record_value (mkHistogram 1 1000 1) 500).2)
    ⟨by decide, by decide, by decide, by decide, by decide, by decide,
      by decide, by decide, by decide, by decide⟩
    (by decide) (by decide) (by decide) (by decide) 150 (-1) (by decide)
    (by decide)

/-- Witness for `C7_percentile_monotone`: one value 500 recorded into
`hdr_init(1, 1000, 1)`, percentiles 30 and 60. -/
theorem C7_witness :
    hdr_value_at_percentile ((hdr_record_value (mkHistogram 1 1000 1) 500).2)
        30 ≤
      hdr_value_at_percentile ((hdr_record_value (mkHistogram 1 1000 1) 500).2)
        60 :=
  C7_percentile_monotone ((hdr_record_value (mkHistogram 1 1000 1) 500).2)
    ⟨by decide, by decide, by decide, by decide, by decide, by decide,
      by decide, by decide, by decide, by decide⟩
    (by decide) (by decide) 30 60 (by decide) (by decide) (by decide)

/-! ## Coordinated-omission correction (claim C8) -/

/-- Modelled from the spec (4.C): the backfill loop of
`record_corrected_values`: "synthesise additional samples at values
`v - expected_interval`, `v - 2*expected_interval`, ... while the synthesised
value ≥ `expected_interval`, each recorded once"; recording stops early if a
synthesised value cannot be recorded.  The fuel argument makes the loop a
structural recursion: each iteration lowers `delayed` by
`expected_interval ≥ 1`, so the caller's fuel of `delayed.toNat + 1` always
outlasts the loop. -/
def record_corrected_loop :
    Nat → hdr_histogram → Int → Int → Nat → Bool × hdr_histogram
  | 0, h, _, _, _ => (true, h)
  | fuel + 1, h, delayed_value, expected_interval, count =>
    if expected_interval ≤ delayed_value then
      match hdr_record_values h delayed_value count with
      | (false, h2) => (false, h2)
      | (true, h2) =>
        record_corrected_loop fuel h2 (delayed_value - expected_interval)
          expected_interval count
    else
      (true, h)

/-- Modelled from the spec (4.C): `record_corrected_value(s)` (header lines
224-251): record `value`, then if `expected_interval > 0` and
`value > expected_interval`, run the backfill loop from
`value - expected_interval`. -/
def hdr_record_corrected_values (h : hdr_histogram) (value : Int)
    (count : Nat) (expected_interval : Int) : Bool × hdr_histogram :=
  match hdr_record_values h value count with
  | (false, h2) => (false, h2)
  | (true, h2) =>
    if expected_interval ≤ 0 ∨ value ≤ expected_interval then (true, h2)
    else
      record_corrected_loop ((value - expected_interval).toNat + 1) h2
        (value - expected_interval) expected_interval count

/-- Modelled from the spec (4.C): `hdr_record_corrected_value` is the
single-sample form. -/
def hdr_record_corrected_value (h : hdr_histogram) (value : Int)
    (expected_interval : Int) : Bool × hdr_histogram :=
  hdr_record_corrected_values h value 1 expected_interval

theorem record_geom_eq (h : hdr_histogram) (value : Int) (count : Nat) :
    ((hdr_record_values h value count).2).unit_magnitude = h.unit_magnitude ∧
    ((hdr_record_values h value count).2).sub_bucket_half_count_magnitude =
      h.sub_bucket_half_count_magnitude ∧
    ((hdr_record_values h value count).2).sub_bucket_half_count =
      h.sub_bucket_half_count ∧
    ((hdr_record_values h value count).2).counts_len = h.counts_len ∧
    ((hdr_record_values h value count).2).bucket_count = h.bucket_count ∧
    ((hdr_record_values h value count).2).counts.length = h.counts.length ∧
    ((hdr_record_values h value count).2).highest_trackable_value =
      h.highest_trackable_value := by
  unfold hdr_record_values
  split
  · exact ⟨rfl, rfl, rfl, rfl, rfl, rfl, rfl⟩
  · dsimp only
    split
    · exact ⟨rfl, rfl, rfl, rfl, rfl, List.length_set _ _ _, rfl⟩
    · exact ⟨rfl, rfl, rfl, rfl, rfl, rfl, rfl⟩

theorem wfGeom_record (h : hdr_histogram) (W : WfGeom h) (value : Int)
    (count : Nat) : WfGeom ((hdr_record_values h value count).2) := by
  unfold hdr_record_values
  split
  · exact W
  · dsimp only
    split
    · exact ⟨W.half_eq, W.sbc_eq, W.shcm_ge, W.len_eq, W.bc_ge, W.cover,
        W.sig_le, W.low_ge, W.low_lt, W.low_pos⟩
    · exact W

theorem counts_index_record_eq (h : hdr_histogram) (value : Int)
    (count : Nat) (x : Nat) :
    counts_index_for ((hdr_record_values h value count).2) x =
      counts_index_for h x := by
  obtain ⟨h1, h2, h3, -, -, -, -⟩ := record_geom_eq h value count
  unfold counts_index_for counts_index get_bucket_index get_sub_bucket_index
  rw [h1, h2, h3]

theorem highest_covered_record_eq (h : hdr_histogram) (value : Int)
    (count : Nat) :
    highest_covered_value ((hdr_record_values h value count).2) =
      highest_covered_value h := by
  obtain ⟨h1, h2, -, -, h5, -, -⟩ := record_geom_eq h value count
  unfold highest_covered_value
  rw [h1, h2, h5]

theorem record_counts_getD_ge (h : hdr_histogram) (value : Int) (count : Nat)
    (i : Nat) :
    h.counts.getD i 0 ≤ ((hdr_record_values h value count).2).counts.getD i 0
    := by
  unfold hdr_record_values
  split
  · exact Nat.le_refl _
  · dsimp only
    split
    · show h.counts.getD i 0 ≤ (h.counts.set (counts_index_for h value.toNat)
        (h.counts.getD (counts_index_for h value.toNat) 0 + count)).getD i 0
      by_cases hi : i = counts_index_for h value.toNat
      · by_cases hil : counts_index_for h value.toNat < h.counts.length
        · rw [hi, getD_set_self _ _ _ hil]
          omega
        · rw [List.set_eq_of_length_le (by omega)]
      · rw [getD_set_ne _ _ _ _ hi]
    · exact Nat.le_refl _

theorem counts_index_lt_of_le_highest (h : hdr_histogram) (W : WfGeom h)
    (v : Nat) (hv : v ≤ h.highest_trackable_value) :
    counts_index_for h v < h.counts_len :=
  (counts_index_lt_iff h W v).2 (lt_of_le_of_lt hv W.cover)

theorem record_corrected_loop_spec (fuel : Nat) :
    ∀ (k : Nat) (h : hdr_histogram) (E : Int) (count : Nat),
    WfGeom h → h.counts.length = h.counts_len → 1 ≤ E → 1 ≤ count →
    k ≤ fuel →
    (∀ j : Nat, 1 ≤ j → j ≤ k →
      ((j : Int) * E).toNat ≤ h.highest_trackable_value) →
    (record_corrected_loop fuel h ((k : Int) * E) E count).1 = true ∧
    (record_corrected_loop fuel h ((k : Int) * E) E count).2.total_count =
      h.total_count + k * count ∧
    (∀ i : Nat, h.counts.getD i 0 ≤
      (record_corrected_loop fuel h ((k : Int) * E) E count).2.counts.getD
        i 0) ∧
    (∀ j : Nat, 1 ≤ j → j ≤ k →
      1 ≤ (record_corrected_loop fuel h ((k : Int) * E) E
        count).2.counts.getD (counts_index_for h ((j : Int) * E).toNat) 0) ∧
    (∀ x : Nat, counts_index_for
      (record_corrected_loop fuel h ((k : Int) * E) E count).2 x =
      counts_index_for h x) := by
  induction fuel with
  | zero =>
    intro k h E count W hlen hE hcount hkf hjcov
    have hk0 : k = 0 := by omega
    subst hk0
    have heq : record_corrected_loop 0 h (((0 : Nat) : Int) * E) E count =
        (true, h) := rfl
    rw [heq]
    dsimp only
    exact ⟨rfl, by omega, fun i => Nat.le_refl _, fun j hj1 hj0 => by omega,
      fun x => rfl⟩
  | succ f ih =>
    intro k h E count W hlen hE hcount hkf hjcov
    rcases Nat.eq_zero_or_pos k with hk0 | hk1
    · subst hk0
      have heq : record_corrected_loop (f + 1) h (((0 : Nat) : Int) * E) E
          count = (true, h) := by
        simp only [record_corrected_loop, Nat.cast_zero, zero_mul]
        rw [if_neg (by omega : ¬ E ≤ (0 : Int))]
      rw [heq]
      dsimp only
      exact ⟨rfl, by omega, fun i => Nat.le_refl _, fun j hj1 hj0 => by omega,
        fun x => rfl⟩
    · have hkc : (1 : Int) ≤ (k : Int) := by exact_mod_cast hk1
      have hguard : E ≤ (k : Int) * E := by
        calc E = 1 * E := (one_mul E).symm
        _ ≤ (k : Int) * E := mul_le_mul_of_nonneg_right hkc (by omega)
      have hv0 : (0 : Int) ≤ (k : Int) * E :=
        mul_nonneg (by omega) (by omega)
      have hidxlt : counts_index_for h ((k : Int) * E).toNat <
          h.counts_len :=
        counts_index_lt_of_le_highest h W _ (hjcov k hk1 (Nat.le_refl k))
      have hrec := hdr_record_values_pos h ((k : Int) * E) count hv0 hidxlt
      set h2 := (hdr_record_values h ((k : Int) * E) count).2 with hh2
      have hpair : hdr_record_values h ((k : Int) * E) count = (true, h2) := by
        rw [hh2, hrec]
      have W2 : WfGeom h2 := by
        rw [hh2]
        exact wfGeom_record h W _ count
      have hgeom := record_geom_eq h ((k : Int) * E) count
      rw [← hh2] at hgeom
      obtain ⟨-, -, -, hclen, -, hcntlen, hhigh2⟩ := hgeom
      have hidxeq : ∀ x, counts_index_for h2 x = counts_index_for h x := by
        intro x
        rw [hh2]
        exact counts_index_record_eq h _ count x
      have hge : ∀ i, h.counts.getD i 0 ≤ h2.counts.getD i 0 := by
        intro i
        rw [hh2]
        exact record_counts_getD_ge h _ count i
      have htot2 : h2.total_count = h.total_count + count := by
        rw [hh2, hrec]
      have hcnt2 : h2.counts =
          h.counts.set (counts_index_for h ((k : Int) * E).toNat)
            (h.counts.getD (counts_index_for h ((k : Int) * E).toNat) 0 +
              count) := by
        rw [hh2, hrec]
      have hlen2 : h2.counts.length = h2.counts_len := by
        rw [hcntlen, hclen]
        exact hlen
      have hjcov2 : ∀ j : Nat, 1 ≤ j → j ≤ k - 1 →
          ((j : Int) * E).toNat ≤ h2.highest_trackable_value := by
        intro j hj1 hjk
        rw [hhigh2]
        exact hjcov j hj1 (by omega)
      obtain ⟨hI1, hI2, hI3, hI4, hI5⟩ :=
        ih (k - 1) h2 E count W2 hlen2 hE hcount (by omega) hjcov2
      have harg : (k : Int) * E - E = ((k - 1 : Nat) : Int) * E := by
        have hcast : ((k - 1 : Nat) : Int) = (k : Int) - 1 := by
          push_cast [hk1]
          ring
        rw [hcast]
        ring
      have hstep : record_corrected_loop (f + 1) h ((k : Int) * E) E count =
          record_corrected_loop f h2 (((k - 1 : Nat) : Int) * E) E count := by
        simp only [record_corrected_loop]
        rw [if_pos hguard, hpair, harg]
      rw [hstep]
      refine ⟨hI1, ?_, ?_, ?_, ?_⟩
      · rw [hI2, htot2]
        have hsplit : k * count = (k - 1) * count + count := by
          have hkc2 : k = (k - 1) + 1 := by omega
          conv_lhs => rw [hkc2]
          ring
        omega
      · intro i
        calc h.counts.getD i 0 ≤ h2.counts.getD i 0 := hge i
        _ ≤ _ := hI3 i
      · intro j hj1 hjk
        rcases Nat.lt_or_ge j k with hjlt | hjge
        · have hj := hI4 j hj1 (by omega)
          rw [hidxeq] at hj
          exact hj
        · have hjeq : j = k := by omega
          subst hjeq
          have hbase : 1 ≤ h2.counts.getD
              (counts_index_for h ((j : Int) * E).toNat) 0 := by
            rw [hcnt2, getD_set_self _ _ _ (by omega)]
            omega
          exact le_trans hbase (hI3 _)
      · intro x
        rw [hI5, hidxeq]

/-- Claim C8: coordinated-omission expansion: for a histogram and a value
`v = k * E` within range, with `E > 0` and `k ≥ 1`,
`hdr_record_corrected_value(h, v, E)` succeeds, raises `total_count` by
exactly `k`, and leaves at least one sample in the equivalence range of each
of `E, 2E, ..., kE`; and when `E ≤ 0` or `v ≤ E`, only `v` itself is recorded
(`total_count` rises by exactly 1). -/
theorem C8_coordinated_omission (h : hdr_histogram) (W : WfGeom h)
    (hlen : h.counts.length = h.counts_len) (E value : Int) (k : Nat)
    (hE : 1 ≤ E) (hk : 1 ≤ k) (hv : value = (k : Int) * E)
    (hcov : value.toNat ≤ h.highest_trackable_value)
    (j : Nat) (hj1 : 1 ≤ j) (hjk : j ≤ k)
    (E2 value2 : Int) (hv2pos : 0 ≤ value2)
    (hcov2 : value2.toNat ≤ h.highest_trackable_value)
    (helse : E2 ≤ 0 ∨ value2 ≤ E2) :
    (hdr_record_corrected_value h value E).1 = true ∧
    (hdr_record_corrected_value h value E).2.total_count =
      h.total_count + k ∧
    1 ≤ hdr_count_at_value (hdr_record_corrected_value h value E).2
      ((j : Int) * E).toNat ∧
    (hdr_record_corrected_value h value2 E2).1 = true ∧
    (hdr_record_corrected_value h value2 E2).2.total_count =
      h.total_count + 1 := by
  have hmain : (hdr_record_corrected_value h value E).1 = true ∧
      (hdr_record_corrected_value h value E).2.total_count =
        h.total_count + k ∧
      (∀ j : Nat, 1 ≤ j → j ≤ k →
        1 ≤ hdr_count_at_value (hdr_record_corrected_value h value E).2
          ((j : Int) * E).toNat) := by
    have hv0 : (0 : Int) ≤ value := by
      rw [hv]
      exact mul_nonneg (by omega) (by omega)
    have hidxlt : counts_index_for h value.toNat < h.counts_len :=
      counts_index_lt_of_le_highest h W _ hcov
    have hrec := hdr_record_values_pos h value 1 hv0 hidxlt
    set h2 := (hdr_record_values h value 1).2 with hh2
    have hpair : hdr_record_values h value 1 = (true, h2) := by
      rw [hh2, hrec]
    have W2 : WfGeom h2 := by
      rw [hh2]
      exact wfGeom_record h W _ 1
    have hgeom := record_geom_eq h value 1
    rw [← hh2] at hgeom
    obtain ⟨-, -, -, hclen, -, hcntlen, hhigh2⟩ := hgeom
    have hidxeq : ∀ x, counts_index_for h2 x = counts_index_for h x := by
      intro x
      rw [hh2]
      exact counts_index_record_eq h _ 1 x
    have htot2 : h2.total_count = h.total_count + 1 := by
      rw [hh2, hrec]
    have hcnt2 : h2.counts =
        h.counts.set (counts_index_for h value.toNat)
          (h.counts.getD (counts_index_for h value.toNat) 0 + 1) := by
      rw [hh2, hrec]
    have hlen2 : h2.counts.length = h2.counts_len := by
      rw [hcntlen, hclen]
      exact hlen
    have hbase : 1 ≤ h2.counts.getD (counts_index_for h value.toNat) 0 := by
      rw [hcnt2, getD_set_self _ _ _ (by omega)]
      omega
    have hunfold : hdr_record_corrected_value h value E =
        (if E ≤ 0 ∨ value ≤ E then (true, h2)
         else record_corrected_loop ((value - E).toNat + 1) h2 (value - E) E
           1) := by
      show hdr_record_corrected_values h value 1 E = _
      unfold hdr_record_corrected_values
      rw [hpair]
    rcases Nat.lt_or_ge k 2 with hk1 | hk2
    · -- k = 1 : value = E, the backfill loop never runs
      have hkeq : k = 1 := by omega
      subst hkeq
      have hvE : value = E := by
        rw [hv]
        push_cast
        ring
      rw [hunfold, if_pos (Or.inr (le_of_eq hvE))]
      refine ⟨rfl, by rw [htot2], ?_⟩
      intro j hj1 hjk
      have hjeq : j = 1 := by omega
      subst hjeq
      have hje : ((1 : Nat) : Int) * E = value := by
        rw [hvE]
        push_cast
        ring
      unfold hdr_count_at_value
      rw [hje, hidxeq]
      exact hbase
    · -- k ≥ 2 : the loop backfills k - 1 samples
      have hkc2 : (2 : Int) ≤ (k : Int) := by exact_mod_cast hk2
      have h2E : 2 * E ≤ (k : Int) * E :=
        mul_le_mul_of_nonneg_right hkc2 (by omega)
      have hgt : ¬ (E ≤ 0 ∨ value ≤ E) := by
        push_neg
        constructor
        · omega
        · rw [hv]
          omega
      have harg : value - E = ((k - 1 : Nat) : Int) * E := by
        have hcast : ((k - 1 : Nat) : Int) = (k : Int) - 1 := by
          push_cast [hk]
          ring
        rw [hv, hcast]
        ring
      have hfuel : k - 1 ≤ (value - E).toNat + 1 := by
        have hge1 : ((k - 1 : Nat) : Int) ≤ ((k - 1 : Nat) : Int) * E := by
          calc ((k - 1 : Nat) : Int) = ((k - 1 : Nat) : Int) * 1 := by ring
          _ ≤ ((k - 1 : Nat) : Int) * E :=
            mul_le_mul_of_nonneg_left (by omega) (by omega)
        rw [harg]
        omega
      have hjcov2 : ∀ j : Nat, 1 ≤ j → j ≤ k - 1 →
          ((j : Int) * E).toNat ≤ h2.highest_trackable_value := by
        intro j hj1 hjk
        rw [hhigh2]
        have hjle : ((j : Int) * E).toNat ≤ value.toNat := by
          have : (j : Int) * E ≤ (k : Int) * E :=
            mul_le_mul_of_nonneg_right (by exact_mod_cast (by omega : j ≤ k))
              (by omega)
          rw [hv]
          omega
        omega
      obtain ⟨hL1, hL2, hL3, hL4, hL5⟩ := record_corrected_loop_spec
        ((value - E).toNat + 1) (k - 1) h2 E 1 W2 hlen2 hE (Nat.le_refl 1)
        hfuel hjcov2
      rw [harg] at hunfold hL1 hL2 hL3 hL4 hL5
      rw [hunfold, if_neg hgt]
      refine ⟨hL1, ?_, ?_⟩
      · rw [hL2, htot2]
        have : (k - 1) * 1 = k - 1 := by ring
        omega
      · intro j hj1 hjk
        unfold hdr_count_at_value
        rw [hL5, hidxeq]
        rcases Nat.lt_or_ge j k with hjlt | hjge
        · have hj := hL4 j hj1 (by omega)
          rw [hidxeq] at hj
          exact hj
        · have hjeq : j = k := by omega
          subst hjeq
          have hje : ((j : Nat) : Int) * E = value := by rw [hv]
          rw [hje]
          exact le_trans hbase (hL3 _)
  have helse2 : (hdr_record_corrected_value h value2 E2).1 = true ∧
      (hdr_record_corrected_value h value2 E2).2.total_count =
        h.total_count + 1 := by
    have hidxlt : counts_index_for h value2.toNat < h.counts_len :=
      counts_index_lt_of_le_highest h W _ hcov2
    have hrec := hdr_record_values_pos h value2 1 hv2pos hidxlt
    set h2 := (hdr_record_values h value2 1).2 with hh2
    have hpair : hdr_record_values h value2 1 = (true, h2) := by
      rw [hh2, hrec]
    have htot2 : h2.total_count = h.total_count + 1 := by
      rw [hh2, hrec]
    have hunfold : hdr_record_corrected_value h value2 E2 =
        (if E2 ≤ 0 ∨ value2 ≤ E2 then (true, h2)
         else record_corrected_loop ((value2 - E2).toNat + 1) h2
           (value2 - E2) E2 1) := by
      show hdr_record_corrected_values h value2 1 E2 = _
      unfold hdr_record_corrected_values
      rw [hpair]
    rw [hunfold, if_pos helse]
    exact ⟨rfl, htot2⟩
  exact ⟨hmain.1, hmain.2.1, hmain.2.2 j hj1 hjk, helse2.1, helse2.2⟩

/-- Witness for `C8_coordinated_omission`: `hdr_init(1, 1000, 1)`,
`record_corrected_value(1000, 100)` with `k = 10`, probing the synthesised
sample at `j = 3`; plus the no-backfill case `record_corrected_value(50, 100)`
(`v ≤ E`). -/
theorem C8_witness :
    (hdr_record_corrected_value (mkHistogram 1 1000 1) 1000 100).1 = true ∧
    (hdr_record_corrected_value (mkHistogram 1 1000 1) 1000
      100).2.total_count = (mkHistogram 1 1000 1).total_count + 10 ∧
    1 ≤ hdr_count_at_value
      (hdr_record_corrected_value (mkHistogram 1 1000 1) 1000 100).2
      (((3 : Nat) : Int) * 100).toNat ∧
    (hdr_record_corrected_value (mkHistogram 1 1000 1) 50 100).1 = true ∧
    (hdr_record_corrected_value (mkHistogram 1 1000 1) 50
      100).2.total_count = (mkHistogram 1 1000 1).total_count + 1 :=
  C8_coordinated_omission (mkHistogram 1 1000 1)
    ⟨by decide, by decide, by decide, by decide, by decide, by decide,
      by decide, by decide, by decide, by decide⟩
    (by decide) 100 1000 10 (by decide) (by decide) (by decide) (by decide)
    3 (by decide) (by decide) 100 50 (by decide) (by decide)
    (Or.inr (by decide))

/-! ## Merge (claim C9) -/

/-- Modelled from the spec (4.F): the body of `hdr_add`: walk the source's
recorded indices in order (the recorded-values iterator skips zero counts),
re-record each index's value with its count into the destination, and
accumulate the counts of the sample events that could not be recorded. -/
def addIndices (src : hdr_histogram) :
    List Nat → Nat × hdr_histogram → Nat × hdr_histogram
  | [], acc => acc
  | i :: rest, (dropped, dst) =>
    let c := src.counts.getD i 0
    if c = 0 then addIndices src rest (dropped, dst)
    else
      match hdr_record_values dst ((hdr_value_at_index src i : Nat) : Int)
        c with
      | (true, dst2) => addIndices src rest (dropped, dst2)
      | (false, dst2) => addIndices src rest (dropped + c, dst2)

/-- Modelled from the spec (4.F): `hdr_add(h, from)` (header lines 253-263):
"for every recorded index in `src`, compute the corresponding value, re-index
into `dst`, and atomically add the count"; returns the number of dropped
sample events together with the updated destination. -/
def hdr_add (dst src : hdr_histogram) : Nat × hdr_histogram :=
  addIndices src (List.range src.counts_len) (0, dst)

theorem addIndices_spec (src : hdr_histogram) (is : List Nat) :
    ∀ (d0 : Nat) (dst : hdr_histogram),
    (addIndices src is (d0, dst)).1 =
      d0 + (is.map (fun i =>
        if counts_index_for dst (hdr_value_at_index src i) < dst.counts_len
        then 0 else src.counts.getD i 0)).sum ∧
    (addIndices src is (d0, dst)).2.total_count =
      dst.total_count + (is.map (fun i =>
        if counts_index_for dst (hdr_value_at_index src i) < dst.counts_len
        then src.counts.getD i 0 else 0)).sum := by
  induction is with
  | nil =>
    intro d0 dst
    simp [addIndices]
  | cons i rest ih =>
    intro d0 dst
    by_cases hc : src.counts.getD i 0 = 0
    · have hstep : addIndices src (i :: rest) (d0, dst) =
          addIndices src rest (d0, dst) := by
        show (if src.counts.getD i 0 = 0 then addIndices src rest (d0, dst)
          else _) = _
        rw [if_pos hc]
      rw [hstep, List.map_cons, List.map_cons, List.sum_cons, List.sum_cons,
        hc]
      obtain ⟨ih1, ih2⟩ := ih d0 dst
      constructor
      · rw [ih1]
        split <;> omega
      · rw [ih2]
        split <;> omega
    · have hv0 : (0 : Int) ≤ ((hdr_value_at_index src i : Nat) : Int) :=
        Int.natCast_nonneg _
      have htn : ((hdr_value_at_index src i : Nat) : Int).toNat =
          hdr_value_at_index src i := rfl
      by_cases hr : counts_index_for dst (hdr_value_at_index src i) <
          dst.counts_len
      · -- recordable: the sample is re-recorded
        have hrec := hdr_record_values_pos dst
          ((hdr_value_at_index src i : Nat) : Int) (src.counts.getD i 0)
          hv0 (by rw [htn]; exact hr)
        set dst2 := (hdr_record_values dst
          ((hdr_value_at_index src i : Nat) : Int)
          (src.counts.getD i 0)).2 with hdst2
        have hpair : hdr_record_values dst
            ((hdr_value_at_index src i : Nat) : Int)
            (src.counts.getD i 0) = (true, dst2) := by
          rw [hdst2, hrec]
        have hstep : addIndices src (i :: rest) (d0, dst) =
            addIndices src rest (d0, dst2) := by
          show (if src.counts.getD i 0 = 0 then
            addIndices src rest (d0, dst)
            else match hdr_record_values dst
              ((hdr_value_at_index src i : Nat) : Int)
              (src.counts.getD i 0) with
            | (true, d2) => addIndices src rest (d0, d2)
            | (false, d2) => addIndices src rest
                (d0 + src.counts.getD i 0, d2)) = _
          rw [if_neg hc, hpair]
        obtain ⟨hgeq1, hgeq2, hgeq3, hglen, -, -, -⟩ := record_geom_eq dst
          ((hdr_value_at_index src i : Nat) : Int) (src.counts.getD i 0)
        rw [← hdst2] at hglen
        have hidxeq : ∀ x, counts_index_for dst2 x = counts_index_for dst x
            := by
          intro x
          rw [hdst2]
          exact counts_index_record_eq dst _ _ x
        have htot2 : dst2.total_count = dst.total_count +
            src.counts.getD i 0 := by
          rw [hdst2, hrec]
        have hfun : (rest.map (fun i2 =>
            if counts_index_for dst2 (hdr_value_at_index src i2) <
              dst2.counts_len
            then 0 else src.counts.getD i2 0)) =
            (rest.map (fun i2 =>
            if counts_index_for dst (hdr_value_at_index src i2) <
              dst.counts_len
            then 0 else src.counts.getD i2 0)) := by
          apply List.map_congr_left
          intro a _
          rw [hidxeq, hglen]
        have hfun2 : (rest.map (fun i2 =>
            if counts_index_for dst2 (hdr_value_at_index src i2) <
              dst2.counts_len
            then src.counts.getD i2 0 else 0)) =
            (rest.map (fun i2 =>
            if counts_index_for dst (hdr_value_at_index src i2) <
              dst.counts_len
            then src.counts.getD i2 0 else 0)) := by
          apply List.map_congr_left
          intro a _
          rw [hidxeq, hglen]
        obtain ⟨ih1, ih2⟩ := ih d0 dst2
        rw [hfun] at ih1
        rw [hfun2] at ih2
        rw [hstep, List.map_cons, List.map_cons, List.sum_cons,
          List.sum_cons, if_pos hr, if_pos hr, ih1, ih2, htot2]
        omega
      · -- not recordable: the occurrences are dropped
        have hrec := hdr_record_values_oob dst
          ((hdr_value_at_index src i : Nat) : Int) (src.counts.getD i 0)
          hv0 (by rw [htn]; exact hr)
        have hstep : addIndices src (i :: rest) (d0, dst) =
            addIndices src rest (d0 + src.counts.getD i 0, dst) := by
          show (if src.counts.getD i 0 = 0 then
            addIndices src rest (d0, dst)
            else match hdr_record_values dst
              ((hdr_value_at_index src i : Nat) : Int)
              (src.counts.getD i 0) with
            | (true, d2) => addIndices src rest (d0, d2)
            | (false, d2) => addIndices src rest
                (d0 + src.counts.getD i 0, d2)) = _
          rw [if_neg hc, hrec]
        obtain ⟨ih1, ih2⟩ := ih (d0 + src.counts.getD i 0) dst
        rw [hstep, List.map_cons, List.map_cons, List.sum_cons,
          List.sum_cons, if_neg hr, if_neg hr, ih1, ih2]
        omega

theorem sum_getD_range (l : List Nat) :
    ((List.range l.length).map (fun i => l.getD i 0)).sum = l.sum := by
  induction l with
  | nil => rfl
  | cons c rest ih =>
    rw [List.length_cons, List.range_succ_eq_map, List.map_cons,
      List.map_map]
    have hcomp : ((fun i => (c :: rest).getD i 0) ∘ Nat.succ) =
        fun i => rest.getD i 0 := rfl
    rw [hcomp, List.sum_cons, ih]
    rfl

theorem value_at_index_ext (src dst : hdr_histogram)
    (hum : src.unit_magnitude = dst.unit_magnitude)
    (hshcm : src.sub_bucket_half_count_magnitude =
      dst.sub_bucket_half_count_magnitude)
    (hhalf : src.sub_bucket_half_count = dst.sub_bucket_half_count)
    (i : Nat) : hdr_value_at_index src i = hdr_value_at_index dst i := by
  unfold hdr_value_at_index
  rw [hum, hshcm, hhalf]

/-- Claim C9 (amended): `hdr_add(dst, src)` re-records every recorded source
sample into `dst` and returns the number of dropped sample events —
occurrences, counted per sample, not per distinct index — for source values
that fall outside `dst`'s *covered* range (the counts-array range, whose top
`highest_covered_value` is at least `highest_trackable_value`; values between
the two are re-recorded, not dropped, see `C9_refutation`).  When `src` and
`dst` have identical geometry nothing is dropped and `dst.total_count` grows
by exactly `src.total_count`. -/
theorem C9_add_merge (dst src : hdr_histogram)
    (Wdst : WfGeom dst)
    (hum : src.unit_magnitude = dst.unit_magnitude)
    (hshcm : src.sub_bucket_half_count_magnitude =
      dst.sub_bucket_half_count_magnitude)
    (hhalf : src.sub_bucket_half_count = dst.sub_bucket_half_count)
    (hclen : src.counts_len = dst.counts_len)
    (hslen : src.counts.length = src.counts_len)
    (hssum : src.total_count = src.counts.sum)
    (dst2 src2 : hdr_histogram) :
    (hdr_add dst src).1 = 0 ∧
    (hdr_add dst src).2.total_count = dst.total_count + src.total_count ∧
    (hdr_add dst2 src2).1 = ((List.range src2.counts_len).map (fun i =>
      if counts_index_for dst2 (hdr_value_at_index src2 i) < dst2.counts_len
      then 0 else src2.counts.getD i 0)).sum ∧
    (hdr_add dst2 src2).2.total_count = dst2.total_count +
      ((List.range src2.counts_len).map (fun i =>
      if counts_index_for dst2 (hdr_value_at_index src2 i) < dst2.counts_len
      then src2.counts.getD i 0 else 0)).sum := by
  obtain ⟨hg1, hg2⟩ := addIndices_spec src (List.range src.counts_len) 0 dst
  obtain ⟨hg3, hg4⟩ := addIndices_spec src2 (List.range src2.counts_len) 0
    dst2
  have hrec : ∀ i ∈ List.range src.counts_len,
      counts_index_for dst (hdr_value_at_index src i) < dst.counts_len := by
    intro i hi
    rw [value_at_index_ext src dst hum hshcm hhalf i,
      counts_index_value_at_index dst Wdst i]
    rw [List.mem_range] at hi
    omega
  refine ⟨?_, ?_, ?_, ?_⟩
  · show (addIndices src (List.range src.counts_len) (0, dst)).1 = 0
    rw [hg1]
    have hz : ((List.range src.counts_len).map (fun i =>
        if counts_index_for dst (hdr_value_at_index src i) < dst.counts_len
        then 0 else src.counts.getD i 0)).sum = 0 := by
      apply List.sum_eq_zero
      intro x hx
      rw [List.mem_map] at hx
      obtain ⟨i, hi, hxeq⟩ := hx
      rw [if_pos (hrec i hi)] at hxeq
      omega
    omega
  · show (addIndices src (List.range src.counts_len) (0, dst)).2.total_count
      = dst.total_count + src.total_count
    rw [hg2]
    have hmap : ((List.range src.counts_len).map (fun i =>
        if counts_index_for dst (hdr_value_at_index src i) < dst.counts_len
        then src.counts.getD i 0 else 0)) =
        ((List.range src.counts_len).map (fun i => src.counts.getD i 0)) := by
      apply List.map_congr_left
      intro i hi
      rw [if_pos (hrec i hi)]
    rw [hmap, ← hslen, sum_getD_range, hssum]
  · show (addIndices src2 (List.range src2.counts_len) (0, dst2)).1 = _
    omega
  · show (addIndices src2
        (List.range src2.counts_len) (0, dst2)).2.total_count = _
    exact hg4

/-- Claim C9, original statement refuted: `src` = `hdr_init(1, 2000, 1)` with
one recorded value 1010, merged into `dst` = `hdr_init(1, 1000, 1)`: the
value 1010 exceeds `dst.highest_trackable_value = 1000`, yet `hdr_add`
reports 0 dropped and re-records it (`dst.total_count` becomes 1), because
1010 still fits in `dst`'s counts array (covered up to 1023) — so "dropped
iff outside `[lowest, highest]`" does not hold. -/
theorem C9_refutation :
    (mkHistogram 1 1000 1).highest_trackable_value = 1000 ∧
    (hdr_add (mkHistogram 1 1000 1)
      (hdr_record_value (mkHistogram 1 2000 1) 1010).2).1 = 0 ∧
    (hdr_add (mkHistogram 1 1000 1)
      (hdr_record_value (mkHistogram 1 2000 1) 1010).2).2.total_count = 1 := by
  decide

/-- Witness for `C9_add_merge`: two `hdr_init(1, 1000, 1)` histograms, the
source holding one sample of value 500; the general-clause pair reuses the
refutation's shapes. -/
theorem C9_witness :
    (hdr_add (mkHistogram 1 1000 1)
      (hdr_record_value (mkHistogram 1 1000 1) 500).2).1 = 0 ∧
    (hdr_add (mkHistogram 1 1000 1)
        (hdr_record_value (mkHistogram 1 1000 1) 500).2).2.total_count =
      (mkHistogram 1 1000 1).total_count +
        (hdr_record_value (mkHistogram 1 1000 1) 500).2.total_count ∧
    (hdr_add (mkHistogram 1 1000 1)
      (hdr_record_value (mkHistogram 1 2000 1) 1010).2).1 =
      ((List.range (hdr_record_value (mkHistogram 1 2000 1)
        1010).2.counts_len).map (fun i =>
        if counts_index_for (mkHistogram 1 1000 1)
          (hdr_value_at_index
            (hdr_record_value (mkHistogram 1 2000 1) 1010).2 i) <
          (mkHistogram 1 1000 1).counts_len
        then 0 else (hdr_record_value (mkHistogram 1 2000 1)
          1010).2.counts.getD i 0)).sum ∧
    (hdr_add (mkHistogram 1 1000 1)
        (hdr_record_value (mkHistogram 1 2000 1) 1010).2).2.total_count =
      (mkHistogram 1 1000 1).total_count +
      ((List.range (hdr_record_value (mkHistogram 1 2000 1)
        1010).2.counts_len).map (fun i =>
        if counts_index_for (mkHistogram 1 1000 1)
          (hdr_value_at_index
            (hdr_record_value (mkHistogram 1 2000 1) 1010).2 i) <
          (mkHistogram 1 1000 1).counts_len
        then (hdr_record_value (mkHistogram 1 2000 1) 1010).2.counts.getD i 0
        else 0)).sum :=
  C9_add_merge (mkHistogram 1 1000 1)
    (hdr_record_value (mkHistogram 1 1000 1) 500).2
    ⟨by decide, by decide, by decide, by decide, by decide, by decide,
      by decide, by decide, by decide, by decide⟩
    (by decide) (by decide) (by decide) (by decide) (by decide) (by decide)
    (mkHistogram 1 1000 1) (hdr_record_value (mkHistogram 1 2000 1) 1010).2
